import Mathlib

/-!
# Verification of the category-traversal / format-dispatch core of
# typhonjs-github-inspect-orgs-transform

This file gives a shallow embedding of the JavaScript sources
(`src/transform/transformCategories.js`, `transformText.js`, `transformMarkdown.js`,
`transformHTML.js`, `transformJSON.js`, `indent.js`, `TransformControl.js`) and
proves properties of the embedding.

Conventions of the embedding:
* JavaScript values are modelled by the inductive type `Js` (numbers are
  modelled as integers; the repository's normalized data carries only integral
  numbers, and no claim depends on float formatting).
* JavaScript exceptions are modelled by `Except JsErr`; `JsErr.typeError`
  stands for a thrown `TypeError`, `JsErr.jsError` for a thrown `Error`.
* The in-place mutation of the caller's `options` object is modelled by
  explicit state passing of a `JsOptions` record; the record's `extra` field
  stands for all caller fields the engine never touches.
* The recursive traversal is defined with an internal fuel argument so it is
  structurally recursive; the top-level entry point supplies fuel
  `categories.length + 1`, which always suffices because the source recursion
  increases `depth` by 1 per level and stops before `categories.length`.
* To state properties about renderer invocations, the traversal additionally
  returns a trace of `Event` records, one per invocation of the render
  callback, recording the arguments and the per-depth state the callback
  observes.  The string component is exactly the source's accumulated result.
-/

namespace GhTransform

/-- A JavaScript value (shallow embedding; numbers restricted to integers). -/
inductive Js where
  | undef
  | null
  | bool (b : Bool)
  | num (n : Int)
  | str (s : String)
  | arr (elems : List Js)
  | obj (fields : List (String × Js))
deriving Repr, Inhabited

/-- A JavaScript exception: a `TypeError`, a plain `Error`, or exhaustion of
the model's internal fuel (unreachable from the public entry points). -/
inductive JsErr where
  | typeError (msg : String)
  | jsError (msg : String)
  | fuelOut
deriving Repr, DecidableEq

/-- First-match association-list lookup, modelling JS object property lookup
(the embedding constructs objects with unique keys, as real JS objects have). -/
def jsLookup : List (String × Js) → String → Option Js
  | [], _ => none
  | (k, v) :: fs, key => if k = key then some v else jsLookup fs key

/-- JS truthiness. -/
def truthy : Js → Bool
  | .undef => false
  | .null => false
  | .bool b => b
  | .num n => n != 0
  | .str s => s != ""
  | .arr _ => true
  | .obj _ => true

/-- Property access `v[key]` for a non-null receiver, total: absent
properties are `undefined`.  Arrays and strings expose `length` and their
canonically-numbered elements, as in JS. -/
def fieldOfD : Js → String → Js
  | .obj fs, key => (jsLookup fs key).getD .undef
  | .arr xs, key =>
      if key = "length" then .num xs.length
      else
        match key.toNat? with
        | some i => if toString i = key then xs.getD i .undef else .undef
        | none => .undef
  | .str s, key =>
      if key = "length" then .num s.length
      else
        match key.toNat? with
        | some i =>
            if toString i = key then
              match s.data[i]? with
              | some c => .str (String.mk [c])
              | none => .undef
            else .undef
        | none => .undef
  | _, _ => Js.undef

/-- Property access `v[key]`: throws `TypeError` on `null`/`undefined`
receivers, otherwise `fieldOfD`. -/
def getFieldE : Js → String → Except JsErr Js
  | .undef, key => .error (.typeError ("Cannot read property '" ++ key ++ "' of undefined"))
  | .null, key => .error (.typeError ("Cannot read property '" ++ key ++ "' of null"))
  | v, key => .ok (fieldOfD v key)

/-- The loop bound taken from `entries.length` in
`for (let cntr = 0; cntr < entries.length; cntr++)`:
a `TypeError` for `null`/`undefined`; the length of arrays and strings;
for plain objects the numeric value of a `length` field if any (clamped at 0),
else 0 iterations (`cntr < undefined` is false); 0 for numbers/booleans.
(Non-numeric `length` fields of plain objects are abstracted to 0 iterations.) -/
def jsLength : Js → Except JsErr Nat
  | .undef => .error (.typeError "Cannot read property 'length' of undefined")
  | .null => .error (.typeError "Cannot read property 'length' of null")
  | .arr xs => .ok xs.length
  | .str s => .ok s.length
  | .obj fs =>
      .ok (match jsLookup fs "length" with
           | some (.num n) => n.toNat
           | _ => 0)
  | _ => .ok 0

/-- Indexed element access `entries[cntr]` with a numeric index. -/
def jsIndex : Js → Nat → Js
  | .arr xs, i => xs.getD i .undef
  | .str s, i =>
      (match s.data[i]? with
       | some c => .str (String.mk [c])
       | none => .undef)
  | .obj fs, i => (jsLookup fs (toString i)).getD .undef
  | _, _ => Js.undef

/-- `String.split(':')`, implemented structurally on the character list.
`"a:b" ↦ ["a","b"]`, `"" ↦ [""]`, `"a::b" ↦ ["a","","b"]`, as in JS. -/
def splitColonAux : List Char → List Char → List String
  | [], acc => [String.mk acc.reverse]
  | c :: cs, acc =>
      if c = ':' then String.mk acc.reverse :: splitColonAux cs []
      else splitColonAux cs (c :: acc)

/-- `s.split(':')` on a string. -/
def splitColon (s : String) : List String := splitColonAux s.data []

/-- The per-depth record the engine stores in `options._transformData[depth]`.
The source pushes empty objects `{}` and assigns all four fields before each
render-callback invocation at a depth, so the default field values below are
never observable through the engine. -/
structure TData where
  firstEntry : Bool := false
  lastEntry : Bool := false
  maxDepth : Bool := false
  pass : Nat := 0
deriving Repr, DecidableEq

/-- The caller's `options` object threaded through the traversal.
`description` and `transformType` are caller fields the transforms read;
`transformData` and `maxDepthLength` are the engine-owned fields
`_transformData`/`_maxDepthLength` (`none` models an `undefined` field);
`extra` stands for any other caller fields, which no code in the core touches. -/
@[ext]
structure JsOptions where
  description : Js := .undef
  transformType : Js := .undef
  transformData : Option (List TData) := none
  maxDepthLength : Option Nat := none
  extra : List (String × Js) := []
deriving Repr

/-- One render-callback invocation, as recorded by the instrumented traversal:
the arguments `(category, entry, depth)` together with the entry's position
(`idx` of `len` in its array) and the per-depth state fields the callback
observes through `options._transformData[depth]`. -/
structure Event where
  category : String
  entry : Js
  depth : Nat
  idx : Nat
  len : Nat
  firstEntry : Bool
  lastEntry : Bool
  maxDepth : Bool
  pass : Nat
deriving Repr

/-- Read `options._transformData[depth]`: a `TypeError` if `_transformData`
is `undefined` or has no element at `depth` (reading a property of
`undefined`), as the renderers would hit in JS. -/
def tdataAt (options : JsOptions) (depth : Nat) : Except JsErr TData :=
  match options.transformData with
  | none => .error (.typeError "Cannot read property of undefined (_transformData)")
  | some l =>
      match l[depth]? with
      | some td => .ok td
      | none => .error (.typeError "Cannot read property of undefined (_transformData[depth])")

/-- Write the four state fields of `options._transformData[depth]`
(`firstEntry`, `lastEntry`, `maxDepth`, `pass`), as lines 54-57 of
`transformCategories.js` do; a `TypeError` if the slot does not exist. -/
def setStateAt (options : JsOptions) (depth : Nat) (td : TData) : Except JsErr JsOptions :=
  match options.transformData with
  | none => .error (.typeError "Cannot set property of undefined (_transformData)")
  | some l =>
      match l[depth]? with
      | some _ => .ok { options with transformData := some (l.set depth td) }
      | none => .error (.typeError "Cannot set property of undefined (_transformData[depth])")

/-- Write only `options._transformData[depth].pass`, as line 68 of
`transformCategories.js` does (the other three fields are left as they are). -/
def setPassAt (options : JsOptions) (depth : Nat) (p : Nat) : Except JsErr JsOptions :=
  match options.transformData with
  | none => .error (.typeError "Cannot set property of undefined (_transformData)")
  | some l =>
      match l[depth]? with
      | some td => .ok { options with transformData := some (l.set depth { td with pass := p }) }
      | none => .error (.typeError "Cannot set property of undefined (_transformData[depth])")

/-- The `maxDepth` computation of `transformCategories.js` lines 51-52:
`!(nextCategory && Array.isArray(entries[cntr][nextCategory]) &&
entries[cntr][nextCategory].length > 0)`.  `nextCategory` is falsy when it is
`undefined` (`none`) or the empty string; the property access throws a
`TypeError` when the entry is `null`/`undefined`. -/
def jsMaxDepth (entry : Js) (nextCategory : Option String) : Except JsErr Bool :=
  match nextCategory with
  | none => .ok true
  | some nc =>
      if nc = "" then .ok true
      else
        match getFieldE entry nc with
        | .error e => .error e
        | .ok v =>
            match v with
            | .arr [] => .ok true
            | .arr (_ :: _) => .ok false
            | _ => .ok true

/-- A render callback `(category, entry, depth, options) → string`, which may
throw (modelling `transformFunction` in `transformCategories.js`). -/
def RenderFn : Type := String → Js → Nat → JsOptions → Except JsErr String

/-- The body of the `for` loop of `s_DEPTH_TRAVERSAL`
(`transformCategories.js` lines 49-71), iterating `remaining` more times with
the loop counter currently at `cntr` (`len` is `entries.length`).  `visit` is
the recursive call `s_DEPTH_TRAVERSAL(categories, entries[cntr], depth + 1, …)`.
Returns the accumulated string, the final options state and the trace of
render-callback invocations. -/
def entriesLoop (f : RenderFn) (category : String) (nextCategory : Option String)
    (depth : Nat) (entries : Js) (len : Nat)
    (visit : Js → JsOptions → Except JsErr (String × JsOptions × List Event)) :
    Nat → Nat → JsOptions → Except JsErr (String × JsOptions × List Event)
  | 0, _, options => .ok ("", options, [])
  | remaining + 1, cntr, options =>
      match jsMaxDepth (jsIndex entries cntr) nextCategory with
      | .error e => .error e
      | .ok maxDepth =>
        match setStateAt options depth
            { firstEntry := cntr == 0, lastEntry := cntr == len - 1,
              maxDepth := maxDepth, pass := 0 } with
        | .error e => .error e
        | .ok options1 =>
          match f category (jsIndex entries cntr) depth options1 with
          | .error e => .error e
          | .ok s0 =>
            match
              (if maxDepth then .ok ("", options1, []) else visit (jsIndex entries cntr) options1 :
                Except JsErr (String × JsOptions × List Event)) with
            | .error e => .error e
            | .ok (sRec, options2, trRec) =>
              match setPassAt options2 depth 1 with
              | .error e => .error e
              | .ok options3 =>
                match tdataAt options3 depth with
                | .error e => .error e
                | .ok td1 =>
                  match f category (jsIndex entries cntr) depth options3 with
                  | .error e => .error e
                  | .ok s1 =>
                    match entriesLoop f category nextCategory depth entries len visit
                        remaining (cntr + 1) options3 with
                    | .error e => .error e
                    | .ok (sRest, o, trRest) =>
                        .ok (s0 ++ sRec ++ s1 ++ sRest, o,
                          { category := category, entry := jsIndex entries cntr,
                            depth := depth, idx := cntr, len := len,
                            firstEntry := cntr == 0, lastEntry := cntr == len - 1,
                            maxDepth := maxDepth, pass := 0 } ::
                          (trRec ++
                            { category := category, entry := jsIndex entries cntr,
                              depth := depth, idx := cntr, len := len,
                              firstEntry := td1.firstEntry, lastEntry := td1.lastEntry,
                              maxDepth := td1.maxDepth, pass := td1.pass } :: trRest))

/-- `s_DEPTH_TRAVERSAL(categories, data, depth, transformFunction, options)`
(`transformCategories.js` lines 41-74), instrumented with the invocation
trace.  `fuel` only bounds the recursion depth so the definition is
structural; the entry point supplies `categories.length + 1`, which is never
exhausted (the recursion requires `categories[depth + 1]` to be a nonempty
string, so `depth` stays below `categories.length`). -/
def traverseNode (f : RenderFn) (categories : List String) :
    Nat → Nat → Js → JsOptions → Except JsErr (String × JsOptions × List Event)
  | 0, _, _, _ => .error .fuelOut
  | fuel + 1, depth, data, options =>
      match getFieldE data (categories.getD depth "undefined") with
      | .error e => .error e
      | .ok entries =>
        match jsLength entries with
        | .error e => .error e
        | .ok len =>
            entriesLoop f (categories.getD depth "undefined")
              (if categories.length > depth then categories[depth + 1]? else none)
              depth entries len (traverseNode f categories fuel (depth + 1)) len 0 options

/-- The exported `transformCategories(data, transformFunction, options)`
(`transformCategories.js` lines 11-27), instrumented with the invocation
trace: split `data.categories` at `':'`, set `_maxDepthLength` and
`_transformData` (one fresh `{}` per category), run the depth traversal, then
reset both engine-owned fields to `undefined`. -/
def transformCategoriesT (f : RenderFn) (data : Js) (options : JsOptions) :
    Except JsErr (String × JsOptions × List Event) :=
  match getFieldE data "categories" with
  | .error e => .error e
  | .ok catsVal =>
    match catsVal with
    | .str catStr =>
        match
          traverseNode f (splitColon catStr) ((splitColon catStr).length + 1) 0 data
            { options with
                maxDepthLength := some (splitColon catStr).length,
                transformData := some (List.replicate (splitColon catStr).length {}) } with
        | .error e => .error e
        | .ok (resultString, options1, tr) =>
            .ok (resultString,
              { options1 with transformData := none, maxDepthLength := none }, tr)
    | _ => .error (.typeError "data.categories.split is not a function")

/-- The loop of `s_DEPTH_TRAVERSAL` counting only visited entries: each
iteration contributes `1` plus the entries visited by the recursive call when
the entry is not a leaf.  Mirrors `entriesLoop` with the render calls and
state writes dropped (they do not affect which entries are visited). -/
def countLoop (nextCategory : Option String) (entries : Js)
    (visitCount : Js → Except JsErr Nat) : Nat → Nat → Except JsErr Nat
  | 0, _ => .ok 0
  | remaining + 1, cntr =>
      match jsMaxDepth (jsIndex entries cntr) nextCategory with
      | .error e => .error e
      | .ok maxDepth =>
        match (if maxDepth then .ok 0 else visitCount (jsIndex entries cntr) :
            Except JsErr Nat) with
        | .error e => .error e
        | .ok cRec =>
          match countLoop nextCategory entries visitCount remaining (cntr + 1) with
          | .error e => .error e
          | .ok cRest => .ok (1 + cRec + cRest)

/-- The number of entries `s_DEPTH_TRAVERSAL` visits below one node
(mirrors `traverseNode`). -/
def countNode (categories : List String) : Nat → Nat → Js → Except JsErr Nat
  | 0, _, _ => .error .fuelOut
  | fuel + 1, depth, data =>
      match getFieldE data (categories.getD depth "undefined") with
      | .error e => .error e
      | .ok entries =>
        match jsLength entries with
        | .error e => .error e
        | .ok len =>
            countLoop (if categories.length > depth then categories[depth + 1]? else none)
              entries (countNode categories fuel (depth + 1)) len 0

/-- The total number of entries, across all depths, that one
`transformCategories(data, …)` call visits (mirrors `transformCategoriesT`;
independent of the render callback and the options). -/
def countEntriesVisited (data : Js) : Except JsErr Nat :=
  match getFieldE data "categories" with
  | .error e => .error e
  | .ok catsVal =>
    match catsVal with
    | .str catStr =>
        countNode (splitColon catStr) ((splitColon catStr).length + 1) 0 data
    | _ => .error (.typeError "data.categories.split is not a function")

/-! ## Decimal digits and JS string conversion -/

/-- Decimal digit characters of `n`, most significant first (`fuel ≥ n`
suffices; structural so concrete values reduce definitionally). -/
def natCharsAux : Nat → Nat → List Char
  | 0, n => [Nat.digitChar (n % 10)]
  | fuel + 1, n =>
      if n < 10 then [Nat.digitChar n]
      else natCharsAux fuel (n / 10) ++ [Nat.digitChar (n % 10)]

/-- Decimal digit characters of a natural number. -/
def natChars (n : Nat) : List Char := natCharsAux n n

/-- Decimal characters of an integer (`-` sign for negatives), the output of
JS number-to-string conversion for integral values. -/
def intChars (i : Int) : List Char :=
  if i < 0 then '-' :: natChars i.natAbs else natChars i.natAbs

mutual

/-- JS string conversion (template-literal interpolation `${v}`):
`undefined`/`null` spell out, numbers print in decimal, arrays join their
elements with `,` (with empty strings for `null`/`undefined` elements) and
objects print as `[object Object]`. -/
def jsToString : Js → String
  | .undef => "undefined"
  | .null => "null"
  | .bool true => "true"
  | .bool false => "false"
  | .num n => String.mk (intChars n)
  | .str s => s
  | .arr xs => arrJoin xs
  | .obj _ => "[object Object]"

/-- `Array.prototype.toString`: elements joined by `,`. -/
def arrJoin : List Js → String
  | [] => ""
  | [x] => arrElemStr x
  | x :: y :: xs => arrElemStr x ++ "," ++ arrJoin (y :: xs)

/-- One array element in `Array.prototype.toString`: `null`/`undefined`
become the empty string, every other value converts as `jsToString` does
(the cases are spelled out so the recursion stays structural). -/
def arrElemStr : Js → String
  | .undef => ""
  | .null => ""
  | .bool true => "true"
  | .bool false => "false"
  | .num n => String.mk (intChars n)
  | .str s => s
  | .arr xs => arrJoin xs
  | .obj _ => "[object Object]"

end

/-- Abstraction of the JS `new Date(v)` template interpolation used by the
`ratelimit` branches of the renderers.  The exact string JS produces is
environment-dependent (locale/time zone) and outside the spec's scope; the
model only needs a deterministic function of the value. -/
def jsDateToString (v : Js) : String := "[Date " ++ jsToString v ++ "]"

/-! ## JSON.stringify -/

/-- One character of a JSON string body, escaped as `JSON.stringify` escapes
it: `"` and `\` with a backslash, the five named control characters with
their short escapes, other control characters as `\u00xx`. -/
def escChar (c : Char) : List Char :=
  if c = '"' ∨ c = '\\' then ['\\', c]
  else if c = '\x08' then ['\\', 'b']
  else if c = '\x0c' then ['\\', 'f']
  else if c = '\n' then ['\\', 'n']
  else if c = '\r' then ['\\', 'r']
  else if c = '\t' then ['\\', 't']
  else if c.toNat < 0x20 then
    ['\\', 'u', '0', '0', Nat.digitChar (c.toNat / 16), Nat.digitChar (c.toNat % 16)]
  else [c]

/-- A JSON string literal: quote, escaped body, quote. -/
def emitStr (s : String) : List Char :=
  '"' :: (s.data.flatMap escChar ++ ['"'])

mutual

/-- `JSON.stringify(v)` as a character list; `none` models the `undefined`
result for an `undefined` argument. -/
def emitVal : Js → Option (List Char)
  | .undef => none
  | .null => some ('n' :: ['u', 'l', 'l'])
  | .bool true => some ('t' :: ['r', 'u', 'e'])
  | .bool false => some ('f' :: ['a', 'l', 's', 'e'])
  | .num n => some (intChars n)
  | .str s => some (emitStr s)
  | .arr xs => some ('[' :: (emitElems xs ++ [']']))
  | .obj fs => some ('{' :: (emitMembers fs ++ ['}']))

/-- Array elements, comma-separated; `undefined` elements serialize as
`null`, as `JSON.stringify` renders them. -/
def emitElems : List Js → List Char
  | [] => []
  | [x] => emitElemOr x
  | x :: y :: xs => emitElemOr x ++ ',' :: emitElems (y :: xs)

/-- One array element: its serialization, or `null` when it has none
(the cases are spelled out so the recursion stays structural). -/
def emitElemOr : Js → List Char
  | .undef => 'n' :: ['u', 'l', 'l']
  | .null => 'n' :: ['u', 'l', 'l']
  | .bool true => 't' :: ['r', 'u', 'e']
  | .bool false => 'f' :: ['a', 'l', 's', 'e']
  | .num n => intChars n
  | .str s => emitStr s
  | .arr xs => '[' :: (emitElems xs ++ [']'])
  | .obj fs => '{' :: (emitMembers fs ++ ['}'])

/-- Object members, comma-separated; members whose value has no
serialization (`undefined`) are dropped, as `JSON.stringify` drops them. -/
def emitMembers : List (String × Js) → List Char
  | [] => []
  | (k, v) :: fs =>
      match emitVal v with
      | none => emitMembers fs
      | some ev =>
          let rest := emitMembers fs
          emitStr k ++ ':' :: (ev ++ (if rest.isEmpty then [] else ',' :: rest))

end

/-- `JSON.stringify(v)` as a string (`none` for an `undefined` argument). -/
def jsonStringify (v : Js) : Option String :=
  (emitVal v).map String.mk

/-- `JSON.stringify(v)` as a JS value: a string, or `undefined`. -/
def jsonStringifyJs (v : Js) : Js :=
  match emitVal v with
  | some cs => .str (String.mk cs)
  | none => Js.undef

/-- `${JSON.stringify(v)}` inside a template literal: the `undefined` result
interpolates as the text `undefined`. -/
def stringifyTemplate (v : Js) : String :=
  match emitVal v with
  | some cs => String.mk cs
  | none => "undefined"

/-! ## Renderers -/

/-- `indent(depth)` (`indent.js`): three spaces per depth level. -/
def indent (depth : Nat) : String := String.mk (List.replicate (3 * depth) ' ')

/-- `v !== ''`: false exactly for the empty string. -/
def isEmptyStr : Js → Bool
  | .str "" => true
  | _ => false

/-- `typeof options.description === 'boolean' ? options.description : false`. -/
def descOf (options : JsOptions) : Bool :=
  match options.description with
  | .bool b => b
  | _ => false

/-- `options._maxDepthLength > k` (false when the field is `undefined`,
as the JS comparison is). -/
def mdlGt (options : JsOptions) (k : Nat) : Bool :=
  match options.maxDepthLength with
  | some n => decide (n > k)
  | none => false

/-- `options._maxDepthLength === k` (false when the field is `undefined`). -/
def mdlEq (options : JsOptions) (k : Nat) : Bool :=
  match options.maxDepthLength with
  | some n => decide (n = k)
  | none => false

/-- The text renderer `s_TRANSFORM` (`transformText.js` lines 37-103). -/
def sTRANSFORMText : RenderFn := fun category entry depth options =>
  match tdataAt options depth with
  | .error e => .error e
  | .ok td =>
  if td.pass > 0 then .ok "" else do
  let lastEntry := td.lastEntry
  let maxDepth := td.maxDepth
  let desc := descOf options
  let pre := indent depth
  match category with
  | "collaborators" | "contributors" | "members" | "owners" | "users" => do
      let tail := if depth > 0 && lastEntry && maxDepth then "\n\n" else "\n"
      let nameV ← getFieldE entry "name"
      if desc then do
        let urlV ← getFieldE entry "url"
        pure (pre ++ jsToString nameV ++
          (if isEmptyStr urlV then "" else " - " ++ jsToString urlV) ++ tail)
      else pure (pre ++ jsToString nameV ++ tail)
  | "orgs" => do
      let tail :=
        if depth == 0 && mdlGt options 1 && maxDepth then "\n\n"
        else if depth > 0 && lastEntry && maxDepth then "\n\n"
        else "\n"
      let nameV ← getFieldE entry "name"
      if desc then do
        let descV ← getFieldE entry "description"
        pure (pre ++ jsToString nameV ++
          (if isEmptyStr descV then "" else " - " ++ jsToString descV) ++ tail)
      else pure (pre ++ jsToString nameV ++ tail)
  | "ratelimit" => do
      let tail := if depth > 0 && lastEntry && maxDepth then "\n\n" else "\n"
      let core ← getFieldE entry "core"
      let cLimit ← getFieldE core "limit"
      let cRemaining ← getFieldE core "remaining"
      let cReset ← getFieldE core "reset"
      let search ← getFieldE entry "search"
      let sLimit ← getFieldE search "limit"
      let sRemaining ← getFieldE search "remaining"
      let sReset ← getFieldE search "reset"
      pure (pre ++ "Core: limit: " ++ jsToString cLimit ++ ", remaining: " ++
        jsToString cRemaining ++ ", reset: " ++ jsDateToString cReset ++ "\n" ++
        indent depth ++ "Search: limit: " ++ jsToString sLimit ++ ", remaining: " ++
        jsToString sRemaining ++ ", reset: " ++ jsDateToString sReset ++ tail)
  | "repos" | "teams" => do
      let tail :=
        if depth > 0 && mdlGt options 0 && lastEntry && maxDepth then "\n\n" else "\n"
      let nameV ← getFieldE entry "name"
      if desc then do
        let descV ← getFieldE entry "description"
        pure (pre ++ jsToString nameV ++
          (if truthy descV then " - " ++ jsToString descV else "") ++ tail)
      else pure (pre ++ jsToString nameV ++ tail)
  | "stats" => do
      let tail := if depth > 0 && mdlGt options 0 && maxDepth then "\n\n" else "\n"
      pure (pre ++ stringifyTemplate entry ++ tail)
  | _ => pure pre

/-- The markdown renderer `s_TRANSFORM` (`transformMarkdown.js` lines 37-108). -/
def sTRANSFORMMarkdown : RenderFn := fun category entry depth options =>
  match tdataAt options depth with
  | .error e => .error e
  | .ok td =>
  if td.pass > 0 then .ok "" else do
  let lastEntry := td.lastEntry
  let maxDepth := td.maxDepth
  let desc := descOf options
  let (pre, tail) : String × String :=
    match depth with
    | 1 => (indent 1 ++ "- ", "\n" ++ (if lastEntry && maxDepth then "\n" else ""))
    | 2 => (indent 2 ++ "* ", "\n" ++ (if lastEntry && maxDepth then "\n" else ""))
    | _ => ("", "\n\n")
  match category with
  | "collaborators" | "contributors" | "members" | "owners" | "users" => do
      let (pre, tail) :=
        if depth == 0 && mdlEq options 1 then ("- ", "\n") else (pre, tail)
      let urlV ← getFieldE entry "url"
      let nameV ← getFieldE entry "name"
      pure (pre ++
        (if isEmptyStr urlV then jsToString nameV
         else "[" ++ jsToString nameV ++ "](" ++ jsToString urlV ++ ")") ++ tail)
  | "orgs" | "repos" => do
      let urlV ← getFieldE entry "url"
      let nameV ← getFieldE entry "name"
      if desc then do
        let descV ← getFieldE entry "description"
        pure (pre ++
          (if isEmptyStr urlV then jsToString nameV
           else "[" ++ jsToString nameV ++ "](" ++ jsToString urlV ++ ")") ++
          (if truthy descV then " - " ++ jsToString descV else "") ++ tail)
      else
        pure (pre ++
          (if isEmptyStr urlV then jsToString nameV
           else "[" ++ jsToString nameV ++ "](" ++ jsToString urlV ++ ")") ++ tail)
  | "ratelimit" => do
      let core ← getFieldE entry "core"
      let cLimit ← getFieldE core "limit"
      let cRemaining ← getFieldE core "remaining"
      let cReset ← getFieldE core "reset"
      let search ← getFieldE entry "search"
      let sLimit ← getFieldE search "limit"
      let sRemaining ← getFieldE search "remaining"
      let sReset ← getFieldE search "reset"
      pure (pre ++ "Core: limit: " ++ jsToString cLimit ++ ", remaining: " ++
        jsToString cRemaining ++ ", reset: " ++ jsDateToString cReset ++ "\n" ++
        pre ++ "Search: limit: " ++ jsToString sLimit ++ ", remaining: " ++
        jsToString sRemaining ++ ", reset: " ++ jsDateToString sReset ++ tail)
  | "teams" => do
      let nameV ← getFieldE entry "name"
      if desc then do
        let descV ← getFieldE entry "description"
        pure (pre ++ jsToString nameV ++
          (if truthy descV then " - " ++ jsToString descV else "") ++ tail)
      else pure (pre ++ jsToString nameV ++ tail)
  | "stats" => do
      pure (pre ++ "```" ++ stringifyTemplate entry ++ "```" ++ tail)
  | _ => pure ""

/-- `s_TRANSFORM_FIRST_PASS` of the HTML renderer
(`transformHTML.js` lines 68-143). -/
def sTRANSFORMHTMLFirst (category : String) (entry : Js) (depth : Nat)
    (options : JsOptions) : Except JsErr String :=
  match tdataAt options depth with
  | .error e => .error e
  | .ok td =>
  let firstEntry := td.firstEntry
  let maxDepth := td.maxDepth
  let desc := descOf options
  let pre :=
    if firstEntry then
      indent depth ++ "<ul id=\"" ++ category ++ "\">\n" ++ indent (depth + 1) ++ "<li>"
    else if depth == 0 && mdlGt options 1 then
      -- `depth === 0 && depth < maxDepthLength - 1`: with `depth = 0` this is
      -- `maxDepthLength > 1` (false when the field is `undefined`)
      indent (depth + 1) ++ "<li class=\"li-depth-0\">"
    else indent (depth + 1) ++ "<li>"
  let tail := if maxDepth then "</li>\n" else "\n"
  match category with
  | "collaborators" | "contributors" | "members" | "owners" | "users" => do
      let urlV ← getFieldE entry "url"
      let nameV ← getFieldE entry "name"
      pure (pre ++
        (if isEmptyStr urlV then jsToString nameV
         else "<a href=\"" ++ jsToString urlV ++ "\" target=\"_blank\">" ++
           jsToString nameV ++ "</a>") ++ tail)
  | "orgs" | "repos" => do
      let urlV ← getFieldE entry "url"
      let nameV ← getFieldE entry "name"
      if desc then do
        let descV ← getFieldE entry "description"
        pure (pre ++
          (if isEmptyStr urlV then jsToString nameV
           else "<a href=\"" ++ jsToString urlV ++ "\" target=\"_blank\">" ++
             jsToString nameV ++ "</a>") ++
          (if truthy descV then " - " ++ jsToString descV else "") ++ tail)
      else
        pure (pre ++
          (if isEmptyStr urlV then jsToString nameV
           else "<a href=\"" ++ jsToString urlV ++ "\" target=\"_blank\">" ++
             jsToString nameV ++ "</a>") ++ tail)
  | "ratelimit" => do
      let core ← getFieldE entry "core"
      let cLimit ← getFieldE core "limit"
      let cRemaining ← getFieldE core "remaining"
      let cReset ← getFieldE core "reset"
      let search ← getFieldE entry "search"
      let sLimit ← getFieldE search "limit"
      let sRemaining ← getFieldE search "remaining"
      let sReset ← getFieldE search "reset"
      pure (pre ++ "Core: limit: " ++ jsToString cLimit ++ ", remaining: " ++
        jsToString cRemaining ++ ", reset: " ++ jsDateToString cReset ++ tail ++
        indent (depth + 1) ++ "<li>Search: limit: " ++ jsToString sLimit ++
        ", remaining: " ++ jsToString sRemaining ++ ", reset: " ++
        jsDateToString sReset ++ tail)
  | "teams" => do
      let nameV ← getFieldE entry "name"
      if desc then do
        let descV ← getFieldE entry "description"
        pure (pre ++ jsToString nameV ++
          (if truthy descV then " - " ++ jsToString descV else "") ++ tail)
      else pure (pre ++ jsToString nameV ++ tail)
  | "stats" => do
      pure (pre ++ "<pre>" ++ stringifyTemplate entry ++ "</pre>" ++ tail)
  | _ => pure pre

/-- `s_TRANSFORM_SECOND_PASS` of the HTML renderer
(`transformHTML.js` lines 159-175). -/
def sTRANSFORMHTMLSecond (_category : String) (_entry : Js) (depth : Nat)
    (options : JsOptions) : Except JsErr String :=
  match tdataAt options depth with
  | .error e => .error e
  | .ok td =>
  let lastEntry := td.lastEntry
  let maxDepth := td.maxDepth
  let tail :=
    (if !maxDepth then indent (depth + 1) ++ "</li>\n" else "") ++
    (if lastEntry then indent depth ++ "</ul>\n" else "")
  pure tail

/-- The HTML renderer `s_TRANSFORM` (`transformHTML.js` lines 39-53),
dispatching on the pass. -/
def sTRANSFORMHTML : RenderFn := fun category entry depth options =>
  match tdataAt options depth with
  | .error e => .error e
  | .ok td =>
    match td.pass with
    | 0 => sTRANSFORMHTMLFirst category entry depth options
    | 1 => sTRANSFORMHTMLSecond category entry depth options
    | _ => .ok ""

/-! ## The four exported transforms and `TransformControl` -/

/-- The type of a registered transform: `(data, options) → result`
(the default transforms produce strings; the result is a JS value since the
JSON transform can produce `undefined`). -/
def Transform : Type := Js → JsOptions → Except JsErr (Js × JsOptions)

/-- `transformText.js` default export. -/
def transformText : Transform := fun data options =>
  (transformCategoriesT sTRANSFORMText data options).map (fun r => (.str r.1, r.2.1))

/-- `transformMarkdown.js` default export. -/
def transformMarkdown : Transform := fun data options =>
  (transformCategoriesT sTRANSFORMMarkdown data options).map (fun r => (.str r.1, r.2.1))

/-- `transformHTML.js` default export. -/
def transformHTML : Transform := fun data options =>
  (transformCategoriesT sTRANSFORMHTML data options).map (fun r => (.str r.1, r.2.1))

/-- `transformJSON.js` default export: `JSON.stringify(data)` — a whole-object
serialization that never calls `transformCategories` and ignores the options. -/
def transformJSON : Transform := fun data options =>
  .ok (jsonStringifyJs data, options)

/-- The transform table a default-constructed `TransformControl` holds. -/
def defaultTransforms : String → Option Transform := fun name =>
  match name with
  | "html" => some transformHTML
  | "json" => some transformJSON
  | "markdown" => some transformMarkdown
  | "text" => some transformText
  | _ => none

/-- `TransformControl` state: the registered transforms (`_transforms`) and
the current transform type (`_transformType`). -/
structure TransformControl where
  transforms : String → Option Transform
  transformType : String

/-- A default-constructed `TransformControl` (no user options): the four
built-in transforms, current type `"text"`. -/
def TransformControl.targetDefault : TransformControl :=
  { transforms := defaultTransforms, transformType := "text" }

/-- `TransformControl.getTransformType` (lines 82-85). -/
def TransformControl.getTransformType (tc : TransformControl) : String :=
  tc.transformType

/-- `TransformControl.setTransformType(transformType)` (lines 92-105),
translated exactly as written: both guards test the *current field*
`this._transformType` — the first (`typeof this._transformType !== 'string'`)
is always false since the field always holds a string, and the second tests
`this._transforms[this._transformType]`, not the argument — after which the
argument is assigned unconditionally. -/
def TransformControl.setTransformType (tc : TransformControl) (transformType : String) :
    Except JsErr TransformControl :=
  if (tc.transforms tc.transformType).isNone then
    .error (.jsError "setTransformType error: 'transformType' is an invalid transform type.")
  else .ok { tc with transformType := transformType }

/-- `typeof v === 'object'` (true for `null`, arrays and plain objects). -/
def isTypeofObject : Js → Bool
  | .null => true
  | .arr _ => true
  | .obj _ => true
  | _ => false

/-- `typeof options.transformType !== 'undefined' && typeof
options.transformType !== 'string'`. -/
def badTransformTypeField : Js → Bool
  | .undef => false
  | .str _ => false
  | _ => true

/-- `TransformControl.transform(data, options)` (lines 121-146).  The method
never assigns to `this`, so the returned control state is the receiver
unchanged (state-passing embedding of the mutable object). -/
def TransformControl.transform (tc : TransformControl) (data : Js) (options : JsOptions) :
    Except JsErr (Js × JsOptions × TransformControl) := do
  if !isTypeofObject data then
    .error (.typeError "transform error: 'data' is not a 'object'.")
  else if badTransformTypeField options.transformType then
    .error (.typeError "transform error: 'options.transformType' is not a 'string'.")
  else
    match tc.transforms
        (match options.transformType with | .str s => s | _ => tc.transformType) with
    | none => .error (.jsError "transform error: 'transformType' is an invalid transform type.")
    | some fn =>
        match fn data options with
        | .error e => .error e
        | .ok p => .ok (p.1, p.2, tc)

/-! ## A JSON decoder

The repository serializes with `JSON.stringify` but never parses; to state
the round-trip property of the spec ("the JSON output decoded back…") the
file provides a strict JSON decoder for exactly the grammar `JSON.stringify`
emits (no whitespace tolerance needed).  `parseValue` is structural on a fuel
argument; `jsonParse` supplies fuel `2 * length + 2`, which suffices for any
`JSON.stringify` output (proved by the round-trip theorem). -/

/-- Numeric value of a decimal digit run (most significant first). -/
def digitsVal (ds : List Char) : Nat :=
  ds.foldl (fun acc c => acc * 10 + (c.toNat - '0'.toNat)) 0

/-- Decode one short escape character. -/
def unescChar : Char → Option Char
  | '"' => some '"'
  | '\\' => some '\\'
  | '/' => some '/'
  | 'b' => some '\x08'
  | 'f' => some '\x0c'
  | 'n' => some '\n'
  | 'r' => some '\r'
  | 't' => some '\t'
  | _ => none

/-- Value of a hexadecimal digit character. -/
def hexVal (c : Char) : Option Nat :=
  let n := c.toNat
  if 48 ≤ n ∧ n ≤ 57 then some (n - 48)
  else if 97 ≤ n ∧ n ≤ 102 then some (n - 87)
  else if 65 ≤ n ∧ n ≤ 70 then some (n - 55)
  else none

/-- Parse a JSON string body after the opening quote (structural on input). -/
def parseStrBody (acc : List Char) : List Char → Option (String × List Char)
  | '"' :: rest => some (String.mk acc.reverse, rest)
  | '\\' :: 'u' :: a :: b :: c :: d :: rest =>
      (do
        let va ← hexVal a
        let vb ← hexVal b
        let vc ← hexVal c
        let vd ← hexVal d
        parseStrBody (Char.ofNat (((va * 16 + vb) * 16 + vc) * 16 + vd) :: acc) rest)
  | '\\' :: e :: rest =>
      (match unescChar e with
       | some ch => parseStrBody (ch :: acc) rest
       | none => none)
  | c :: rest => parseStrBody (c :: acc) rest
  | [] => none

/-- Parse an unsigned decimal integer: maximal digit run, nonempty. -/
def parseNat (cs : List Char) : Option (Nat × List Char) :=
  let ds := cs.takeWhile Char.isDigit
  let rest := cs.dropWhile Char.isDigit
  if ds.isEmpty then none else some (digitsVal ds, rest)

/-- Parse a JSON integer (optional minus sign). -/
def parseInt (cs : List Char) : Option (Int × List Char) :=
  match cs with
  | '-' :: rest => (parseNat rest).map (fun r => (-(r.1 : Int), r.2))
  | _ => (parseNat cs).map (fun r => ((r.1 : Int), r.2))

mutual

/-- Parse one JSON value (strict: no whitespace), structural on `fuel`. -/
def parseValue : Nat → List Char → Option (Js × List Char)
  | 0, _ => none
  | fuel + 1, cs =>
      match cs with
      | 'n' :: 'u' :: 'l' :: 'l' :: rest => some (.null, rest)
      | 't' :: 'r' :: 'u' :: 'e' :: rest => some (.bool true, rest)
      | 'f' :: 'a' :: 'l' :: 's' :: 'e' :: rest => some (.bool false, rest)
      | '"' :: rest =>
          (parseStrBody [] rest).map (fun r => (.str r.1, r.2))
      | '[' :: ']' :: rest => some (.arr [], rest)
      | '[' :: rest =>
          (parseElems fuel rest).map (fun r => (.arr r.1, r.2))
      | '{' :: '}' :: rest => some (.obj [], rest)
      | '{' :: rest =>
          (parseMembers fuel rest).map (fun r => (.obj r.1, r.2))
      | _ => (parseInt cs).map (fun r => (.num r.1, r.2))

/-- Parse one-or-more comma-separated array elements up to `]`. -/
def parseElems : Nat → List Char → Option (List Js × List Char)
  | 0, _ => none
  | fuel + 1, cs =>
      match parseValue fuel cs with
      | none => none
      | some (v, rest) =>
          match rest with
          | ',' :: rest2 =>
              (parseElems fuel rest2).map (fun r => (v :: r.1, r.2))
          | ']' :: rest2 => some ([v], rest2)
          | _ => none

/-- Parse one-or-more comma-separated object members up to `}`. -/
def parseMembers : Nat → List Char → Option (List (String × Js) × List Char)
  | 0, _ => none
  | fuel + 1, cs =>
      match cs with
      | '"' :: rest =>
          (match parseStrBody [] rest with
           | none => none
           | some (key, rest1) =>
               match rest1 with
               | ':' :: rest2 =>
                   (match parseValue fuel rest2 with
                    | none => none
                    | some (v, rest3) =>
                        match rest3 with
                        | ',' :: rest4 =>
                            (parseMembers fuel rest4).map (fun r => ((key, v) :: r.1, r.2))
                        | '}' :: rest4 => some ([(key, v)], rest4)
                        | _ => none)
               | _ => none)
      | _ => none

end

/-- Decode a complete JSON document (the inverse direction of the
round-trip property; strict grammar, entire input must be consumed). -/
def jsonParse (s : String) : Option Js :=
  match parseValue (2 * s.length + 2) s.data with
  | some (v, []) => some v
  | _ => none

mutual

/-- No `undefined` anywhere inside a value: the JSON-representable data
nodes (what `JSON.stringify` can round-trip). -/
def noUndef : Js → Bool
  | .undef => false
  | .null => true
  | .bool _ => true
  | .num _ => true
  | .str _ => true
  | .arr xs => noUndefList xs
  | .obj fs => noUndefFields fs

/-- `noUndef` over array elements. -/
def noUndefList : List Js → Bool
  | [] => true
  | x :: xs => noUndef x && noUndefList xs

/-- `noUndef` over object member values. -/
def noUndefFields : List (String × Js) → Bool
  | [] => true
  | (_, v) :: fs => noUndef v && noUndefFields fs

end

/-! ## Spec-side predicates

These definitions follow the wording of the specification (not the source)
and are compared against the source-derived definitions above. -/

/-- The specification's leaf condition, as worded in the spec/claims:
an entry at `depth` is a leaf iff `depth` is the last chain index, or the
entry's field named by the next category is absent, not an array, or an
empty array. -/
def specIsLeaf (categories : List String) (depth : Nat) (entry : Js) : Bool :=
  decide (depth + 1 ≥ categories.length) ||
    (match categories[depth + 1]? with
     | none => true
     | some nc =>
         match fieldOfD entry nc with
         | .arr [] => true
         | .arr (_ :: _) => false
         | _ => true)

/-- The amended leaf condition: as `specIsLeaf`, with the additional case
that an *empty-string* next-category name also makes the entry a leaf
(the source's `nextCategory &&` guard treats `""` as falsy). -/
def specIsLeafA (categories : List String) (depth : Nat) (entry : Js) : Bool :=
  specIsLeaf categories depth entry || decide (categories[depth + 1]? = some "")

/-- Trace-local description of the engine's recursion discipline: every
pass-0 invocation is immediately followed by another invocation, which is the
same entry's pass-1 invocation at the same depth when the entry is a leaf
(so a leaf produces no invocations at depth+1), and a pass-0 invocation at
depth+1 when it is not (the engine recursed). -/
def StepOK (tr : List Event) : Prop :=
  ∀ i e, tr[i]? = some e → e.pass = 0 →
    ∃ e', tr[i + 1]? = some e' ∧
      (e.maxDepth = true →
        e'.depth = e.depth ∧ e'.pass = 1 ∧ e'.entry = e.entry ∧ e'.idx = e.idx) ∧
      (e.maxDepth = false → e'.depth = e.depth + 1 ∧ e'.pass = 0)

/-- What one recorded invocation satisfies, for a traversal rooted at
`depth`: a binary pass, a depth within bounds, a position within its array,
position flags that agree with the position, and a leaf flag that agrees
with the (amended) spec condition. -/
def EvProp (categories : List String) (depth : Nat) (e : Event) : Prop :=
  (e.pass = 0 ∨ e.pass = 1) ∧ depth ≤ e.depth ∧ e.depth < categories.length ∧
  e.idx < e.len ∧ e.firstEntry = decide (e.idx = 0) ∧
  e.lastEntry = decide (e.idx = e.len - 1) ∧
  e.maxDepth = specIsLeafA categories e.depth e.entry

/-- How a traversal rooted at `depth` relates its final options state to the
initial one: every field except `_transformData` is untouched, and within
`_transformData` the length and all records below `depth` are untouched. -/
def OptionsFrame (depth : Nat) (options o : JsOptions) : Prop :=
  o.description = options.description ∧ o.transformType = options.transformType ∧
  o.extra = options.extra ∧ o.maxDepthLength = options.maxDepthLength ∧
  (options.transformData = none → o.transformData = none) ∧
  (∀ l, options.transformData = some l →
    ∃ l', o.transformData = some l' ∧ l'.length = l.length ∧
      ∀ i, i < depth → l'[i]? = l[i]?)

/-- The category names the `switch` statements of the three built-in
renderers (text, markdown, HTML first pass) carry a `case` for. -/
def handledCategories : List String :=
  ["collaborators", "contributors", "members", "owners", "users",
   "orgs", "ratelimit", "repos", "teams", "stats"]

/-! ## The traversal induction bundle -/

/-- Everything a successful run of the entries loop (from `cntr`, `remaining`
iterations, of the array `entries` of length `len`, at `depth`) guarantees. -/
structure LoopPost (categories : List String) (fuel depth : Nat) (entries : Js)
    (len r cntr : Nat) (options o : JsOptions) (tr : List Event) : Prop where
  cnt : ∃ n, countLoop categories[depth + 1]? entries
          (countNode categories fuel (depth + 1)) r cntr = .ok n ∧
        tr.countP (fun e => e.pass == 0) = n ∧ tr.countP (fun e => e.pass == 1) = n
  evp : ∀ e ∈ tr, EvProp categories depth e
  emp : tr = [] ↔ r = 0
  hd : ∀ e, tr.head? = some e → e.depth = depth ∧ e.pass = 0
  lst : ∀ e, tr.getLast? = some e → e.pass = 1
  own : (tr.filter (fun e => e.depth == depth)).length = 2 * r
  step : StepOK tr
  frame : OptionsFrame depth options o

/-- Everything a successful `s_DEPTH_TRAVERSAL` call at `depth` guarantees. -/
structure NodePost (categories : List String) (fuel depth : Nat) (data : Js)
    (options o : JsOptions) (tr : List Event) : Prop where
  cnt : ∃ n, countNode categories fuel depth data = .ok n ∧
        tr.countP (fun e => e.pass == 0) = n ∧ tr.countP (fun e => e.pass == 1) = n
  evp : ∀ e ∈ tr, EvProp categories depth e
  hd : ∀ e, tr.head? = some e → e.depth = depth ∧ e.pass = 0
  lst : ∀ e, tr.getLast? = some e → e.pass = 1
  own : ∀ entries len, getFieldE data (categories.getD depth "undefined") = .ok entries →
        jsLength entries = .ok len →
        (tr.filter (fun e => e.depth == depth)).length = 2 * len ∧ (tr = [] ↔ len = 0)
  step : StepOK tr
  frame : OptionsFrame depth options o

/-! ## Concrete witness inputs -/

/-- A render callback that returns the empty string (used by witnesses). -/
def witRF : RenderFn := fun _ _ _ _ => .ok ""

/-- A two-depth data tree: one org `"A"` with a single repo `"r1"`. -/
def witData1 : Js := .obj [("categories", .str "orgs:repos"),
  ("orgs", .arr [.obj [("name", .str "A"),
    ("repos", .arr [.obj [("name", .str "r1")]])]])]

/-- The first recorded invocation of `transformCategoriesT witRF witData1 {}`:
the pass-0 visit of the single org entry. -/
def witEv0 : Event :=
  { category := "orgs",
    entry := .obj [("name", .str "A"), ("repos", .arr [.obj [("name", .str "r1")]])],
    depth := 0, idx := 0, len := 1, firstEntry := true, lastEntry := true,
    maxDepth := false, pass := 0 }

/-- The invocation trace of `transformCategoriesT witRF witData1 {}`. -/
def witTrace1 : List Event :=
  [witEv0,
   { category := "repos", entry := .obj [("name", .str "r1")],
     depth := 1, idx := 0, len := 1, firstEntry := true, lastEntry := true,
     maxDepth := true, pass := 0 },
   { category := "repos", entry := .obj [("name", .str "r1")],
     depth := 1, idx := 0, len := 1, firstEntry := true, lastEntry := true,
     maxDepth := true, pass := 1 },
   { category := "orgs",
     entry := .obj [("name", .str "A"), ("repos", .arr [.obj [("name", .str "r1")]])],
     depth := 0, idx := 0, len := 1, firstEntry := true, lastEntry := true,
     maxDepth := false, pass := 1 }]

/-- A pass-0 per-depth state record (first and last entry of its array,
marked a leaf). -/
def witTD9a : TData :=
  { firstEntry := true, lastEntry := true, maxDepth := true, pass := 0 }

/-- Options holding `witTD9a` as the depth-0 engine state. -/
def witOpts9a : JsOptions := { transformData := some [witTD9a] }

/-- A pass-1 per-depth state record (last entry, not a leaf). -/
def witTD9b : TData :=
  { firstEntry := false, lastEntry := true, maxDepth := false, pass := 1 }

/-- Options holding `witTD9b` as the depth-0 engine state. -/
def witOpts9b : JsOptions := { transformData := some [witTD9b] }

theorem OptionsFrame.rfl (depth : Nat) (options : JsOptions) :
    OptionsFrame depth options options :=
  ⟨Eq.refl _, Eq.refl _, Eq.refl _, Eq.refl _, fun h => h,
   fun l hl => ⟨l, hl, Eq.refl _, fun _ _ => Eq.refl _⟩⟩

theorem OptionsFrame.trans {depth : Nat} {a b c : JsOptions}
    (h1 : OptionsFrame depth a b) (h2 : OptionsFrame depth b c) :
    OptionsFrame depth a c := by
  obtain ⟨d1, t1, e1, m1, n1, s1⟩ := h1
  obtain ⟨d2, t2, e2, m2, n2, s2⟩ := h2
  refine ⟨d2.trans d1, t2.trans t1, e2.trans e1, m2.trans m1,
    fun h => n2 (n1 h), fun l hl => ?_⟩
  obtain ⟨l', hl', hlen', hpres'⟩ := s1 l hl
  obtain ⟨l'', hl'', hlen'', hpres''⟩ := s2 l' hl'
  exact ⟨l'', hl'', hlen''.trans hlen', fun i hi => (hpres'' i hi).trans (hpres' i hi)⟩

theorem OptionsFrame.weaken {depth : Nat} {a b : JsOptions}
    (h : OptionsFrame (depth + 1) a b) : OptionsFrame depth a b := by
  obtain ⟨d, t, e, m, n, s⟩ := h
  refine ⟨d, t, e, m, n, fun l hl => ?_⟩
  obtain ⟨l', hl', hlen, hpres⟩ := s l hl
  exact ⟨l', hl', hlen, fun i hi => hpres i (Nat.lt_succ_of_lt hi)⟩

/-- Successful `setStateAt` destructured. -/
theorem setStateAt_ok {options : JsOptions} {depth : Nat} {td : TData} {o : JsOptions}
    (h : setStateAt options depth td = .ok o) :
    ∃ l, options.transformData = some l ∧ depth < l.length ∧
      o = { options with transformData := some (l.set depth td) } := by
  unfold setStateAt at h
  split at h
  · exact absurd h (by simp)
  next l hl =>
  split at h
  next td0 hd =>
    cases h
    exact ⟨l, hl, (List.getElem?_eq_some.mp hd).1, Eq.refl _⟩
  next hd => exact absurd h (by simp)

/-- Successful `setPassAt` destructured. -/
theorem setPassAt_ok {options : JsOptions} {depth : Nat} {p : Nat} {o : JsOptions}
    (h : setPassAt options depth p = .ok o) :
    ∃ l td, options.transformData = some l ∧ l[depth]? = some td ∧
      o = { options with transformData := some (l.set depth { td with pass := p }) } := by
  unfold setPassAt at h
  split at h
  · exact absurd h (by simp)
  next l hl =>
  split at h
  next td0 hd =>
    cases h
    exact ⟨l, td0, hl, hd, Eq.refl _⟩
  next hd => exact absurd h (by simp)

/-- Successful `tdataAt` destructured. -/
theorem tdataAt_ok {options : JsOptions} {depth : Nat} {td : TData}
    (h : tdataAt options depth = .ok td) :
    ∃ l, options.transformData = some l ∧ l[depth]? = some td := by
  unfold tdataAt at h
  split at h
  · exact absurd h (by simp)
  next l hl =>
  split at h
  next td0 hd =>
    cases h
    exact ⟨l, hl, hd⟩
  next hd => exact absurd h (by simp)

/-- `setStateAt` only rewrites the record at `depth`. -/
theorem setStateAt_frame {options : JsOptions} {depth : Nat} {td : TData} {o : JsOptions}
    (h : setStateAt options depth td = .ok o) : OptionsFrame depth options o := by
  obtain ⟨l, hl, hlen, rfl⟩ := setStateAt_ok h
  refine ⟨Eq.refl _, Eq.refl _, Eq.refl _, Eq.refl _, fun hc => by simp [hc] at hl,
    fun l0 hl0 => ?_⟩
  obtain rfl : l0 = l := by rw [hl] at hl0; exact (Option.some.inj hl0).symm
  exact ⟨l0.set depth td, Eq.refl _, List.length_set .., fun i hi =>
    List.getElem?_set_ne (show depth ≠ i by omega)⟩

/-- `setPassAt` only rewrites the record at `depth`. -/
theorem setPassAt_frame {options : JsOptions} {depth : Nat} {p : Nat} {o : JsOptions}
    (h : setPassAt options depth p = .ok o) : OptionsFrame depth options o := by
  obtain ⟨l, td, hl, hd, rfl⟩ := setPassAt_ok h
  refine ⟨Eq.refl _, Eq.refl _, Eq.refl _, Eq.refl _, fun hc => by simp [hc] at hl,
    fun l0 hl0 => ?_⟩
  obtain rfl : l0 = l := by rw [hl] at hl0; exact (Option.some.inj hl0).symm
  exact ⟨l0.set depth _, Eq.refl _, List.length_set .., fun i hi =>
    List.getElem?_set_ne (show depth ≠ i by omega)⟩

/-- `splitColon` never returns the empty list (as JS `split`). -/
theorem splitColonAux_ne_nil (cs : List Char) : ∀ acc, splitColonAux cs acc ≠ [] := by
  induction cs with
  | nil => intro acc; simp [splitColonAux]
  | cons c cs ih =>
      intro acc
      by_cases hc : c = ':' <;> simp [splitColonAux, hc, ih]

theorem splitColon_ne_nil (s : String) : splitColon s ≠ [] :=
  splitColonAux_ne_nil s.data []

/-- A successful property access yields `fieldOfD`. -/
theorem getFieldE_ok {entry : Js} {k : String} {v : Js}
    (h : getFieldE entry k = .ok v) : v = fieldOfD entry k := by
  cases entry
  case undef => simp [getFieldE] at h
  case null => simp [getFieldE] at h
  all_goals exact (Except.ok.inj h).symm

/-- The engine's `maxDepth` flag, when its computation succeeds, is exactly
the amended spec leaf condition. -/
theorem jsMaxDepth_spec {categories : List String} {depth : Nat} {entry : Js} {b : Bool}
    (hdepth : depth < categories.length)
    (h : jsMaxDepth entry categories[depth + 1]? = .ok b) :
    b = specIsLeafA categories depth entry := by
  unfold jsMaxDepth at h
  split at h
  next hnc =>
    cases h
    have hge : depth + 1 ≥ categories.length := by
      by_contra hlt
      rw [List.getElem?_eq_none_iff] at hnc
      omega
    simp [specIsLeafA, specIsLeaf, hge]
  next nc hnc =>
    have hlt : depth + 1 < categories.length := (List.getElem?_eq_some.mp hnc).1
    by_cases hempty : nc = ""
    · rw [if_pos hempty] at h
      cases h
      subst hempty
      simp [specIsLeafA, hnc]
    · rw [if_neg hempty] at h
      split at h
      next he => exact absurd h (by simp)
      next v he =>
        have hv := getFieldE_ok he
        subst hv
        have hiff : b = specIsLeaf categories depth entry := by
          unfold specIsLeaf
          rw [hnc]
          simp only [Nat.not_le_of_lt hlt, decide_eq_false, Bool.false_or]
          split at h
          · cases h; simp
          · cases h; simp
          · next hne1 hne2 =>
            cases h
            cases hfield : fieldOfD entry nc with
            | arr xs =>
                cases xs with
                | nil => exact absurd hfield hne1
                | cons x xs => exact absurd hfield (by intro hc; exact hne2 x xs hc)
            | _ => simp
        have hA : decide (categories[depth + 1]? = some "") = false := by
          simp [hnc, hempty]
        simp [specIsLeafA, hA, hiff]

/-- Destructure a false `maxDepth` flag: there is a nonempty, truthy next
category whose field on the entry is a nonempty array. -/
theorem jsMaxDepth_false {entry : Js} {nextCategory : Option String}
    (h : jsMaxDepth entry nextCategory = .ok false) :
    ∃ nc x xs, nextCategory = some nc ∧ nc ≠ "" ∧
      getFieldE entry nc = .ok (.arr (x :: xs)) := by
  unfold jsMaxDepth at h
  split at h
  · simp at h
  next ncs =>
    by_cases he : ncs = ""
    · rw [if_pos he] at h; simp at h
    · rw [if_neg he] at h
      split at h
      · simp at h
      next v hv =>
        split at h
        · simp at h
        next x xs => exact ⟨ncs, x, xs, rfl, he, hv⟩
        · simp at h

theorem EvProp.up {categories : List String} {depth : Nat} {e : Event}
    (h : EvProp categories (depth + 1) e) : EvProp categories depth e :=
  ⟨h.1, Nat.le_of_succ_le h.2.1, h.2.2⟩

theorem StepOK.nil : StepOK [] := by
  intro i e hi
  simp at hi

/-- Composition of one loop-iteration segment: an open event, the subtrace of
the recursion (empty for leaves), the matching close event, then the rest of
the loop's trace. -/
theorem StepOK_segment {ev0 ev1 : Event} {A B : List Event}
    (hp1 : ev1.pass = 1)
    (hmatch : ev1.depth = ev0.depth ∧ ev1.entry = ev0.entry ∧ ev1.idx = ev0.idx)
    (hleaf : ev0.maxDepth = true → A = [])
    (hnl : ev0.maxDepth = false → A ≠ [])
    (hhdA : ∀ e, A.head? = some e → e.depth = ev0.depth + 1 ∧ e.pass = 0)
    (hlstA : ∀ e, A.getLast? = some e → e.pass = 1)
    (hstepA : StepOK A) (hstepB : StepOK B) :
    StepOK (ev0 :: (A ++ ev1 :: B)) := by
  intro i e hi hp
  cases i with
  | zero =>
      rw [List.getElem?_cons_zero] at hi
      cases hi
      cases hM : ev0.maxDepth
      · -- not a leaf: the next invocation is the head of the nonempty subtrace
        have hA : A ≠ [] := hnl hM
        cases hAc : A with
        | nil => exact absurd hAc hA
        | cons a A' =>
            have hhead := hhdA a (by rw [hAc]; rfl)
            refine ⟨a, ?_, fun hc => absurd hc (by simp), fun _ => hhead⟩
            simp [hAc]
      · -- a leaf: the subtrace is empty and the next invocation is the close event
        have hA : A = [] := hleaf hM
        subst hA
        refine ⟨ev1, ?_, fun _ => ⟨hmatch.1, hp1, hmatch.2.1, hmatch.2.2⟩,
          fun hc => absurd hc (by simp)⟩
        simp
  | succ i =>
      rw [List.getElem?_cons_succ] at hi
      by_cases hiA : i < A.length
      · have heA : A[i]? = some e := by rw [← List.getElem?_append_left hiA]; exact hi
        by_cases hsucc : i + 1 < A.length
        · obtain ⟨e', he', hprops⟩ := hstepA i e heA hp
          refine ⟨e', ?_, hprops⟩
          rw [List.getElem?_cons_succ, List.getElem?_append_left hsucc]
          exact he'
        · -- `e` is the last element of `A`, hence a close event: contradiction
          have hiL : i = A.length - 1 := by omega
          have : A.getLast? = some e := by
            rw [List.getLast?_eq_getElem?, ← hiL]; exact heA
          have := hlstA e this
          rw [hp] at this
          exact absurd this (by simp)
      · by_cases hiEv1 : i = A.length
        · -- `e` is the close event itself: contradiction with pass 0
          have : e = ev1 := by
            rw [List.getElem?_append_right (by omega), hiEv1] at hi
            simp at hi
            exact hi.symm
          rw [this, hp1] at hp
          exact absurd hp (by simp)
        · -- `e` lies in the rest of the loop's trace
          have hj : A.length + 1 ≤ i := by omega
          have heB : B[i - A.length - 1]? = some e := by
            rw [List.getElem?_append_right (by omega)] at hi
            have : i - A.length = (i - A.length - 1) + 1 := by omega
            rw [this, List.getElem?_cons_succ] at hi
            exact hi
          obtain ⟨e', he', hprops⟩ := hstepB (i - A.length - 1) e heB hp
          refine ⟨e', ?_, hprops⟩
          rw [List.getElem?_cons_succ, List.getElem?_append_right (by omega)]
          have : i + 1 - A.length = (i - A.length - 1) + 1 + 1 := by omega
          rw [this, List.getElem?_cons_succ]
          exact he'

/-- `getLast?` of a cons-append-cons trace: determined by the final block. -/
theorem getLast?_seg {α : Type} (a b : α) (A B : List α) :
    (a :: (A ++ b :: B)).getLast? = (b :: B).getLast? := by
  have h1 : a :: (A ++ b :: B) = (a :: A) ++ (b :: B) := by simp
  rw [h1, List.getLast?_append_of_ne_nil _ (by simp)]

/-- The induction step for the entries loop: a successful run of
`entriesLoop` (with the recursive visit `traverseNode … (depth + 1)`)
satisfies `LoopPost`, given that successful child traversals satisfy
`NodePost`. -/
theorem entriesLoop_post (f : RenderFn) (categories : List String) (fuel : Nat)
    (IH : ∀ depth' data op s' o' tr', depth' < categories.length →
        traverseNode f categories fuel depth' data op = .ok (s', o', tr') →
        NodePost categories fuel depth' data op o' tr') :
    ∀ (r cntr len depth : Nat) (entries : Js) (options : JsOptions)
      (s : String) (o : JsOptions) (tr : List Event),
      depth < categories.length → cntr + r = len →
      entriesLoop f (categories.getD depth "undefined") categories[depth + 1]?
        depth entries len (traverseNode f categories fuel (depth + 1)) r cntr options
        = .ok (s, o, tr) →
      LoopPost categories fuel depth entries len r cntr options o tr := by
  intro r
  induction r with
  | zero =>
      intro cntr len depth entries options s o tr hdepth hlen h
      simp only [entriesLoop, Except.ok.injEq, Prod.mk.injEq] at h
      obtain ⟨rfl, rfl, rfl⟩ := h
      exact
        { cnt := ⟨0, rfl, rfl, rfl⟩
          evp := by intro e he; simp at he
          emp := by simp
          hd := by intro e he; simp at he
          lst := by intro e he; simp at he
          own := by simp
          step := StepOK.nil
          frame := OptionsFrame.rfl depth options }
  | succ r ihr =>
      intro cntr len depth entries options s o tr hdepth hlen h
      simp only [entriesLoop] at h
      split at h
      · exact absurd h (by simp)
      next maxDepth hmd =>
      split at h
      · exact absurd h (by simp)
      next options1 hst =>
      split at h
      · exact absurd h (by simp)
      next s0 hf0 =>
      split at h
      · exact absurd h (by simp)
      next sRec options2 trRec hrec =>
      split at h
      · exact absurd h (by simp)
      next options3 hsp =>
      split at h
      · exact absurd h (by simp)
      next td1 htd1 =>
      split at h
      · exact absurd h (by simp)
      next s1 hf1 =>
      split at h
      · exact absurd h (by simp)
      next sRest oRest trRest hrest =>
      simp only [Except.ok.injEq, Prod.mk.injEq] at h
      obtain ⟨rfl, rfl, rfl⟩ := h
      have hspec := jsMaxDepth_spec hdepth hmd
      obtain ⟨l, hl, hdl, rfl⟩ := setStateAt_ok hst
      -- facts about the recursive part, by cases on the leaf flag
      have key :
          OptionsFrame (depth + 1)
            { options with transformData := some (l.set depth
                { firstEntry := cntr == 0, lastEntry := cntr == len - 1,
                  maxDepth := maxDepth, pass := 0 }) } options2 ∧
          (∀ e ∈ trRec, EvProp categories depth e ∧ depth + 1 ≤ e.depth) ∧
          (∃ nRec,
            (if maxDepth then (.ok 0 : Except JsErr Nat)
             else countNode categories fuel (depth + 1) (jsIndex entries cntr)) = .ok nRec ∧
            trRec.countP (fun e => e.pass == 0) = nRec ∧
            trRec.countP (fun e => e.pass == 1) = nRec) ∧
          StepOK trRec ∧
          (maxDepth = true → trRec = []) ∧
          (maxDepth = false → trRec ≠ []) ∧
          (∀ e, trRec.head? = some e → e.depth = depth + 1 ∧ e.pass = 0) ∧
          (∀ e, trRec.getLast? = some e → e.pass = 1) ∧
          trRec.filter (fun e => e.depth == depth) = [] := by
        cases hM : maxDepth
        · -- not a leaf: the engine recursed
          rw [hM] at hrec
          simp only [Bool.false_eq_true, if_false] at hrec
          obtain ⟨ncs, x, xs, hnc, hncne, hgf⟩ := jsMaxDepth_false (hM ▸ hmd)
          have hlt1 : depth + 1 < categories.length := (List.getElem?_eq_some.mp hnc).1
          have child := IH (depth + 1) (jsIndex entries cntr) _ sRec options2 trRec hlt1 hrec
          have hgetD : categories.getD (depth + 1) "undefined" = ncs := by
            rw [List.getD_eq_getElem?_getD, hnc]; rfl
          have hchildlen : jsLength (Js.arr (x :: xs)) = .ok (xs.length + 1) := by
            simp [jsLength]
          have hown := child.own (Js.arr (x :: xs)) (xs.length + 1) (by rw [hgetD]; exact hgf)
            hchildlen
          refine ⟨child.frame, ?_, ?_, child.step, by simp, fun _ => ?_, child.hd,
            child.lst, ?_⟩
          · intro e he
            exact ⟨(child.evp e he).up, (child.evp e he).2.1⟩
          · obtain ⟨n, hn, h0, h1⟩ := child.cnt
            exact ⟨n, by simp only [hM, Bool.false_eq_true, if_false]; exact hn, h0, h1⟩
          · intro hc
            exact absurd (hown.2.mp hc) (by omega)
          · rw [List.filter_eq_nil_iff]
            intro e he
            have h21 := (child.evp e he).2.1
            simp only [beq_iff_eq]
            omega
        · -- a leaf: no recursion took place
          rw [hM] at hrec
          simp only [if_true, Except.ok.injEq, Prod.mk.injEq] at hrec
          obtain ⟨rfl, rfl, rfl⟩ := hrec
          exact ⟨OptionsFrame.rfl _ _, by simp, ⟨0, by simp [hM], rfl, rfl⟩, StepOK.nil,
            fun _ => rfl, fun hc => absurd hc (by simp), by simp, by simp, by simp⟩
      obtain ⟨hframe12, hevpRec, ⟨nRec, hcntRec, hp0Rec, hp1Rec⟩, hstepRec, hleafRec,
        hnlRec, hhdRec, hlstRec, hfilterRec⟩ := key
      -- the per-depth record after the recursion and the pass-1 write
      obtain ⟨l2, hl2s, hl2d, hl2len⟩ :
          ∃ l2, options2.transformData = some l2 ∧
            l2[depth]? = some
              { firstEntry := cntr == 0, lastEntry := cntr == len - 1,
                maxDepth := maxDepth, pass := 0 } ∧ l2.length = l.length := by
        obtain ⟨_, _, _, _, _, hsome⟩ := hframe12
        obtain ⟨l2, hl2, hlen2, hpres⟩ := hsome _ rfl
        exact ⟨l2, hl2,
          by rw [hpres depth (Nat.lt_succ_self _), List.getElem?_set_self hdl],
          by rw [hlen2, List.length_set]⟩
      obtain ⟨l3, td3, hl3, hd3, rfl⟩ := setPassAt_ok hsp
      have hl32 : l3 = l2 := by rw [hl2s] at hl3; exact (Option.some.inj hl3).symm
      have htd3 : td3 =
          { firstEntry := cntr == 0, lastEntry := cntr == len - 1,
            maxDepth := maxDepth, pass := 0 } := by
        rw [hl32] at hd3
        exact Option.some.inj (hd3.symm.trans hl2d)
      have hdl3 : depth < l3.length := by rw [hl32, hl2len]; exact hdl
      have htd1v : td1 =
          { firstEntry := cntr == 0, lastEntry := cntr == len - 1,
            maxDepth := maxDepth, pass := 1 } := by
        obtain ⟨l4, hl4, hd4⟩ := tdataAt_ok htd1
        have h' : some (l3.set depth { td3 with pass := 1 }) = some l4 := hl4
        have hl4' : l4 = l3.set depth { td3 with pass := 1 } := (Option.some.inj h').symm
        rw [hl4', List.getElem?_set_self hdl3] at hd4
        have h1 : td1 = { td3 with pass := 1 } := (Option.some.inj hd4).symm
        rw [h1, htd3]
      subst htd1v
      have postRest := ihr (cntr + 1) len depth entries _ sRest oRest trRest hdepth
        (by omega) hrest
      obtain ⟨nRest, hcntRest, hp0Rest, hp1Rest⟩ := postRest.cnt
      have hcntrlen : cntr < len := by omega
      refine
        { cnt := ⟨1 + nRec + nRest, ?_, ?_, ?_⟩
          evp := ?_
          emp := by simp
          hd := by
            intro e he
            rw [List.head?_cons] at he
            cases he
            exact ⟨rfl, rfl⟩
          lst := ?_
          own := ?_
          step := ?_
          frame := OptionsFrame.trans (setStateAt_frame hst)
            (OptionsFrame.trans hframe12.weaken
              (OptionsFrame.trans (setPassAt_frame hsp) postRest.frame)) }
      · -- countLoop computes the matching total
        simp only [countLoop, hmd, hcntRec, hcntRest]
      · simp [List.countP_cons, List.countP_append, hp0Rec, hp0Rest]
        omega
      · simp [List.countP_cons, List.countP_append, hp1Rec, hp1Rest]
        omega
      · -- every event satisfies `EvProp`
        intro e he
        rw [List.mem_cons] at he
        rcases he with rfl | he
        · exact ⟨Or.inl rfl, Nat.le_refl _, hdepth, hcntrlen, rfl, rfl, hspec⟩
        rw [List.mem_append] at he
        rcases he with he | he
        · exact (hevpRec e he).1
        rw [List.mem_cons] at he
        rcases he with rfl | he
        · exact ⟨Or.inr rfl, Nat.le_refl _, hdepth, hcntrlen, rfl, rfl, hspec⟩
        · exact postRest.evp e he
      · -- the trace ends with a close event
        intro e he
        rw [getLast?_seg] at he
        cases hR : trRest with
        | nil =>
            rw [hR] at he
            cases he
            rfl
        | cons x xs =>
            rw [hR, List.getLast?_cons_cons] at he
            exact postRest.lst e (by rw [hR]; exact he)
      · -- exactly two own-depth events per iteration
        have h2 := postRest.own
        simp [List.filter_cons, List.filter_append, hfilterRec, h2]
        omega
      · -- the recursion discipline
        refine StepOK_segment ?_ ?_ ?_ ?_ ?_ ?_ ?_ ?_
        · rfl
        · exact ⟨rfl, rfl, rfl⟩
        · exact hleafRec
        · exact hnlRec
        · exact hhdRec
        · exact hlstRec
        · exact hstepRec
        · exact postRest.step

/-- A successful `s_DEPTH_TRAVERSAL` run satisfies `NodePost` (induction on
the recursion-depth fuel, with `entriesLoop_post` as the per-level step). -/
theorem traverseNode_post (f : RenderFn) (categories : List String) :
    ∀ (fuel depth : Nat) (data : Js) (options : JsOptions) (s : String) (o : JsOptions)
      (tr : List Event),
      depth < categories.length →
      traverseNode f categories fuel depth data options = .ok (s, o, tr) →
      NodePost categories fuel depth data options o tr := by
  intro fuel
  induction fuel with
  | zero =>
      intro depth data options s o tr hdepth h
      simp [traverseNode] at h
  | succ fuel ihf =>
      intro depth data options s o tr hdepth h
      simp only [traverseNode] at h
      split at h
      · exact absurd h (by simp)
      next entries hge =>
      split at h
      · exact absurd h (by simp)
      next len hlenE =>
      rw [if_pos hdepth] at h
      have post := entriesLoop_post f categories fuel
        (fun d' data' op' s' o' tr' hd' h' => ihf d' data' op' s' o' tr' hd' h')
        len 0 len depth entries options s o tr hdepth (by omega) h
      refine
        { cnt := ?_
          evp := post.evp
          hd := post.hd
          lst := post.lst
          own := ?_
          step := post.step
          frame := post.frame }
      · obtain ⟨n, hn, h0, h1⟩ := post.cnt
        refine ⟨n, ?_, h0, h1⟩
        simp only [countNode, hge, hlenE]
        rw [if_pos hdepth]
        exact hn
      · intro entries' len' hge' hlen'
        obtain rfl : entries' = entries := by
          rw [hge] at hge'; exact (Except.ok.inj hge').symm
        obtain rfl : len' = len := by
          rw [hlenE] at hlen'; exact (Except.ok.inj hlen').symm
        exact ⟨post.own, post.emp⟩

/-- Destructure a successful top-level `transformCategories` run into its
category string, the inner traversal run, and the final reset of the
engine-owned options fields. -/
theorem transformCategoriesT_ok {f : RenderFn} {data : Js} {options : JsOptions}
    {s : String} {o : JsOptions} {tr : List Event}
    (h : transformCategoriesT f data options = .ok (s, o, tr)) :
    ∃ catStr o1,
      getFieldE data "categories" = .ok (.str catStr) ∧
      traverseNode f (splitColon catStr) ((splitColon catStr).length + 1) 0 data
        { options with
            maxDepthLength := some (splitColon catStr).length,
            transformData := some (List.replicate (splitColon catStr).length {}) }
        = .ok (s, o1, tr) ∧
      o = { o1 with transformData := none, maxDepthLength := none } := by
  unfold transformCategoriesT at h
  split at h
  · exact absurd h (by simp)
  next catsVal hcv =>
  split at h
  next catStr =>
    split at h
    · exact absurd h (by simp)
    next resultString options1 tr1 hrun =>
      simp only [Except.ok.injEq, Prod.mk.injEq] at h
      obtain ⟨rfl, rfl, rfl⟩ := h
      exact ⟨catStr, options1, hcv, hrun, rfl⟩
  · exact absurd h (by simp)

/-- The chain of a `transformCategories` run is nonempty, so depth 0 is in
bounds. -/
theorem splitColon_length_pos (catStr : String) : 0 < (splitColon catStr).length :=
  List.length_pos.mpr (splitColon_ne_nil catStr)

/-- **C1**: one traversal call invokes the render callback exactly twice per
visited entry: the number of pass-0 invocations equals the number of pass-1
invocations, and both equal the total number of entries visited across all
depths (`countEntriesVisited`). -/
theorem C1_pass_balance (f : RenderFn) (data : Js) (options : JsOptions)
    (s : String) (o : JsOptions) (tr : List Event)
    (h : transformCategoriesT f data options = .ok (s, o, tr)) :
    tr.countP (fun e => e.pass == 0) = tr.countP (fun e => e.pass == 1) ∧
    countEntriesVisited data = .ok (tr.countP (fun e => e.pass == 0)) := by
  obtain ⟨catStr, o1, hcat, hrun, rfl⟩ := transformCategoriesT_ok h
  have post := traverseNode_post f (splitColon catStr) _ 0 data _ s o1 tr
    (splitColon_length_pos catStr) hrun
  obtain ⟨n, hn, h0, h1⟩ := post.cnt
  refine ⟨h0.trans h1.symm, ?_⟩
  simp only [countEntriesVisited, hcat]
  rw [h0]
  exact hn

/-- **C3**: the per-depth state seen by the render callback marks
`firstEntry` exactly at index 0 and `lastEntry` exactly at the last index of
the entry array; both flags are true for the single entry of a one-entry
array. -/
theorem C3_sibling_position (f : RenderFn) (data : Js) (options : JsOptions)
    (s : String) (o : JsOptions) (tr : List Event)
    (h : transformCategoriesT f data options = .ok (s, o, tr)) :
    ∀ e ∈ tr, (e.firstEntry = true ↔ e.idx = 0) ∧
      (e.lastEntry = true ↔ e.idx = e.len - 1) ∧
      (e.len = 1 → e.firstEntry = true ∧ e.lastEntry = true) := by
  obtain ⟨catStr, o1, hcat, hrun, rfl⟩ := transformCategoriesT_ok h
  have post := traverseNode_post f (splitColon catStr) _ 0 data _ s o1 tr
    (splitColon_length_pos catStr) hrun
  intro e he
  obtain ⟨_, _, _, hidx, hfe, hle, _⟩ := post.evp e he
  refine ⟨?_, ?_, ?_⟩
  · rw [hfe]; simp
  · rw [hle]; simp
  · intro h1
    rw [hfe, hle]
    constructor <;> simp <;> omega

/-- After a successful top-level `transformCategories` call, the engine-owned
options fields are reset and all other fields are untouched (shared core of
the options-reset property). -/
theorem options_reset_core (f : RenderFn) (data : Js) (options : JsOptions)
    (s : String) (o : JsOptions) (tr : List Event)
    (h : transformCategoriesT f data options = .ok (s, o, tr)) :
    o.transformData = none ∧ o.maxDepthLength = none ∧
    o.description = options.description ∧ o.transformType = options.transformType ∧
    o.extra = options.extra := by
  obtain ⟨catStr, o1, hcat, hrun, rfl⟩ := transformCategoriesT_ok h
  have post := traverseNode_post f (splitColon catStr) _ 0 data _ s o1 tr
    (splitColon_length_pos catStr) hrun
  obtain ⟨hdesc, htt, hex, _, _, _⟩ := post.frame
  exact ⟨rfl, rfl, hdesc, htt, hex⟩

/-- **C10**: after a successful top-level `transformCategories` call, the
engine-owned options fields `_transformData` and `_maxDepthLength` are reset
to `undefined`, and every other field of the caller's options object is
exactly as before the call. -/
theorem C10_options_reset (f : RenderFn) (data : Js) (options : JsOptions)
    (s : String) (o : JsOptions) (tr : List Event)
    (h : transformCategoriesT f data options = .ok (s, o, tr)) :
    o.transformData = none ∧ o.maxDepthLength = none ∧
    o.description = options.description ∧ o.transformType = options.transformType ∧
    o.extra = options.extra :=
  options_reset_core f data options s o tr h

/-- **C2 (amended)**: for every recorded invocation, the engine's leaf flag
(`maxDepth`) agrees with the spec's leaf condition *amended* by the extra
case of an empty-string next-category name (`specIsLeafA`); and the trace
satisfies the recursion discipline `StepOK`: after each pass-0 invocation of
a leaf entry the very next invocation is that entry's pass-1 invocation at
the same depth (so a leaf — including one whose next-category field is a
present but empty array — produces zero invocations at depth+1), while after
each pass-0 invocation of a non-leaf entry the next invocation is a pass-0
invocation at depth+1 (the engine recursed). -/
theorem C2_leaf_flag_amended (f : RenderFn) (data : Js) (options : JsOptions)
    (s : String) (o : JsOptions) (tr : List Event) (catStr : String)
    (hcat : getFieldE data "categories" = .ok (.str catStr))
    (h : transformCategoriesT f data options = .ok (s, o, tr)) :
    (∀ e ∈ tr, e.maxDepth = specIsLeafA (splitColon catStr) e.depth e.entry) ∧
    StepOK tr := by
  obtain ⟨catStr', o1, hcat', hrun, rfl⟩ := transformCategoriesT_ok h
  have hEq : catStr' = catStr := by
    rw [hcat] at hcat'
    exact (Js.str.inj (Except.ok.inj hcat')).symm
  rw [hEq] at hrun
  have post := traverseNode_post f (splitColon catStr) _ 0 data _ s o1 tr
    (splitColon_length_pos catStr) hrun
  exact ⟨fun e he => (post.evp e he).2.2.2.2.2.2, post.step⟩

/-- **C2 (counterexample)**: the claim's leaf condition (`specIsLeaf`, worded
without the empty-string case) disagrees with the engine on the chain
`"a::b"` (whose middle category name is the empty string) and an entry that
*does* carry a nonempty array under the field named `""`: the engine marks
the entry a leaf (`maxDepth = true` on both passes, recorded below as
`(depth, maxDepth, pass)` per invocation), while the claim's condition says
it is not a leaf (`specIsLeaf … = false`), falsifying the claimed
"if and only if". -/
theorem C2_leaf_flag_counterexample :
    (transformCategoriesT (fun _ _ _ _ => .ok "")
        (.obj [("categories", .str "a::b"), ("a", .arr [.obj [("", .arr [.obj []])]])])
        {}).map (fun r => r.2.2.map (fun e => (e.depth, e.maxDepth, e.pass))) =
      .ok [(0, true, 0), (0, true, 1)] ∧
    specIsLeaf (splitColon "a::b") 0 (.obj [("", .arr [.obj []])]) = false :=
  ⟨rfl, rfl⟩

/-- **C4 (counterexample)**: a root whose first-category field is a plain
(non-array) object makes the traversal *succeed* with the empty string —
there is no `InvalidInputError` (nor any error at all), falsifying the claim
that every non-array first-category field fails with an `InvalidInputError`
naming the field. -/
theorem C4_invalid_input_counterexample :
    transformCategoriesT (fun _ _ _ _ => .ok "")
      (.obj [("categories", .str "orgs"), ("orgs", .obj [])]) {} =
    .ok ("", {}, []) :=
  rfl

/-- **C4 (amended)**: for a root object with a string `categories` field,
if the field named by the first category is absent (`undefined`) or `null`,
the traversal fails synchronously with a generic `TypeError` produced by the
`entries.length` access (not an error that names the field); if instead that
field holds a plain non-array object (without a `length` member), the
traversal does not fail at all: it succeeds, visits no entries, and returns
the empty string. -/
theorem C4_first_category_amended (f : RenderFn) (data : Js) (options : JsOptions)
    (fs : List (String × Js)) (catStr : String)
    (hdata : data = .obj fs)
    (hcat : jsLookup fs "categories" = some (.str catStr)) :
    (fieldOfD data ((splitColon catStr).getD 0 "undefined") = .undef →
      transformCategoriesT f data options =
        .error (.typeError "Cannot read property 'length' of undefined")) ∧
    (fieldOfD data ((splitColon catStr).getD 0 "undefined") = .null →
      transformCategoriesT f data options =
        .error (.typeError "Cannot read property 'length' of null")) ∧
    (∀ gs, fieldOfD data ((splitColon catStr).getD 0 "undefined") = .obj gs →
      jsLookup gs "length" = none →
      transformCategoriesT f data options =
        .ok ("", { options with transformData := none, maxDepthLength := none }, [])) := by
  subst hdata
  have hcatE : getFieldE (.obj fs) "categories" = .ok (.str catStr) := by
    simp [getFieldE, fieldOfD, hcat]
  have hL : ∃ k, (splitColon catStr).length = k + 1 := by
    have := splitColon_length_pos catStr
    exact ⟨(splitColon catStr).length - 1, by omega⟩
  obtain ⟨k, hk⟩ := hL
  refine ⟨?_, ?_, ?_⟩
  · intro hfield
    have hge : getFieldE (Js.obj fs) ((splitColon catStr).getD 0 "undefined") =
        .ok .undef := by
      rw [← hfield]; rfl
    simp only [transformCategoriesT, hcatE, hk, traverseNode, hge, jsLength]
  · intro hfield
    have hge : getFieldE (Js.obj fs) ((splitColon catStr).getD 0 "undefined") =
        .ok .null := by
      rw [← hfield]; rfl
    simp only [transformCategoriesT, hcatE, hk, traverseNode, hge, jsLength]
  · intro gs hfield hlen
    have hge : getFieldE (Js.obj fs) ((splitColon catStr).getD 0 "undefined") =
        .ok (.obj gs) := by
      rw [← hfield]; rfl
    have hlen0 : jsLength (.obj gs) = .ok 0 := by simp [jsLength, hlen]
    simp only [transformCategoriesT, hcatE, hk, traverseNode, hge, hlen0, entriesLoop]

theorem C1_pass_balance_witness :
    witTrace1.countP (fun e => e.pass == 0) = witTrace1.countP (fun e => e.pass == 1) ∧
    countEntriesVisited witData1 = .ok (witTrace1.countP (fun e => e.pass == 0)) :=
  C1_pass_balance witRF witData1 {} "" {} witTrace1 (by rfl)

theorem C2_leaf_flag_amended_witness :
    witEv0.maxDepth = specIsLeafA (splitColon "orgs:repos") witEv0.depth witEv0.entry ∧
    StepOK witTrace1 :=
  ⟨(C2_leaf_flag_amended witRF witData1 {} "" {} witTrace1 "orgs:repos"
      (by rfl) (by rfl)).1 witEv0 (by simp [witTrace1]),
   (C2_leaf_flag_amended witRF witData1 {} "" {} witTrace1 "orgs:repos"
      (by rfl) (by rfl)).2⟩

theorem C3_sibling_position_witness :
    (witEv0.firstEntry = true ↔ witEv0.idx = 0) ∧
    (witEv0.lastEntry = true ↔ witEv0.idx = witEv0.len - 1) ∧
    (witEv0.len = 1 → witEv0.firstEntry = true ∧ witEv0.lastEntry = true) :=
  C3_sibling_position witRF witData1 {} "" {} witTrace1 (by rfl) witEv0
    (by simp [witTrace1])

theorem C10_options_reset_witness :
    (({} : JsOptions)).transformData = none ∧ (({} : JsOptions)).maxDepthLength = none ∧
    (({} : JsOptions)).description = (({} : JsOptions)).description ∧
    (({} : JsOptions)).transformType = (({} : JsOptions)).transformType ∧
    (({} : JsOptions)).extra = (({} : JsOptions)).extra :=
  C10_options_reset witRF witData1 {} "" {} witTrace1 (by rfl)

theorem C4_first_category_amended_witness :
    (transformCategoriesT witRF (.obj [("categories", .str "orgs"), ("orgs", .null)]) {} =
      .error (.typeError "Cannot read property 'length' of null")) ∧
    (transformCategoriesT witRF (.obj [("categories", .str "orgs"), ("orgs", .obj [])]) {} =
      .ok ("", { ({} : JsOptions) with transformData := none, maxDepthLength := none }, [])) :=
  ⟨(C4_first_category_amended witRF _ {} [("categories", .str "orgs"), ("orgs", .null)]
      "orgs" rfl rfl).2.1 (by rfl),
   (C4_first_category_amended witRF _ {} [("categories", .str "orgs"), ("orgs", .obj [])]
      "orgs" rfl rfl).2.2 [] (by rfl) (by rfl)⟩

/-! ## The registry claims -/

/-- **C5 (code bug, evaluated)**: on a default-constructed control (current
type `"text"`, which is registered) `setTransformType("yaml")` *succeeds*
and makes the never-registered name `"yaml"` the active format — because the
source validates `this._transformType` (the current field) instead of its
argument — even though `"yaml"` resolves to no transform.  The spec requires
the call to fail with an unknown-format error and leave the format
unchanged. -/
theorem C5_setTransformType_bug :
    TransformControl.setTransformType TransformControl.targetDefault "yaml" =
      .ok { TransformControl.targetDefault with transformType := "yaml" } ∧
    TransformControl.targetDefault.transforms "yaml" = none :=
  ⟨rfl, rfl⟩

/-- Destructure a successful `TransformControl.transform` call. -/
theorem transform_ok_destruct {tc : TransformControl} {data : Js}
    {options : JsOptions} {r : Js} {o : JsOptions} {tc' : TransformControl}
    (h : tc.transform data options = .ok (r, o, tc')) :
    isTypeofObject data = true ∧ badTransformTypeField options.transformType = false ∧
    tc' = tc ∧
    ∃ fn, tc.transforms
        (match options.transformType with | .str s => s | _ => tc.transformType) = some fn ∧
      fn data options = .ok (r, o) := by
  unfold TransformControl.transform at h
  by_cases h1 : isTypeofObject data
  · by_cases h2 : badTransformTypeField options.transformType
    · rw [if_neg (by simp [h1]), if_pos (by simp [h2])] at h
      exact absurd h (by simp)
    · rw [if_neg (by simp [h1]), if_neg h2] at h
      split at h
      · exact absurd h (by simp)
      next fn hfn =>
        split at h
        · exact absurd h (by simp)
        next p hp =>
          obtain ⟨pr, po⟩ := p
          simp only [Except.ok.injEq, Prod.mk.injEq] at h
          obtain ⟨rfl, rfl, rfl⟩ := h
          exact ⟨h1, by simpa using h2, rfl, fn, hfn, hp⟩
  · have h1' : isTypeofObject data = false := by simpa using h1
    rw [if_pos (by simp [h1'])] at h
    exact absurd h (by simp)

/-- **C6**: a `transform` call whose `transformType` option names a format
with no registered transform throws the unknown-format `Error`
synchronously; and whether or not the override resolves, the control's
stored transform type is never changed by `transform` (the override is
one-shot). -/
theorem C6_transform_unknown_override (tc : TransformControl) (data : Js)
    (options : JsOptions) (t : String)
    (hobj : isTypeofObject data = true)
    (hov : options.transformType = .str t) :
    (tc.transforms t = none →
      tc.transform data options =
        .error (.jsError "transform error: 'transformType' is an invalid transform type.")) ∧
    (∀ r o tc', tc.transform data options = .ok (r, o, tc') →
      tc'.transformType = tc.transformType) := by
  constructor
  · intro hnone
    simp [TransformControl.transform, hobj, hov, badTransformTypeField, hnone]
  · intro r o tc' h
    rw [(transform_ok_destruct h).2.2.1]

theorem C6_transform_unknown_override_witness :
    (TransformControl.targetDefault.transform (.obj [])
        { transformType := .str "yaml" } =
      .error (.jsError "transform error: 'transformType' is an invalid transform type.")) :=
  (C6_transform_unknown_override TransformControl.targetDefault (.obj [])
    { transformType := .str "yaml" } "yaml" rfl rfl).1 rfl

/-- The engine's result does not depend on the incoming engine-owned options
fields: `transformCategories` overwrites `_transformData` and
`_maxDepthLength` before any use. -/
theorem transformCategoriesT_indep (f : RenderFn) (data : Js) (options : JsOptions)
    (x : Option (List TData)) (y : Option Nat) :
    transformCategoriesT f data
      { options with transformData := x, maxDepthLength := y } =
    transformCategoriesT f data options :=
  rfl

/-- A successful `transformCategories` run leaves the caller's options with
only the two engine-owned fields changed — and both reset to `undefined`. -/
theorem transformCategoriesT_out_options {f : RenderFn} {data : Js}
    {options : JsOptions} {s : String} {o : JsOptions} {tr : List Event}
    (h : transformCategoriesT f data options = .ok (s, o, tr)) :
    o = { options with transformData := none, maxDepthLength := none } := by
  obtain ⟨h1, h2, h3, h4, h5⟩ := options_reset_core f data options s o tr h
  ext1 <;> simp [h1, h2, h3, h4, h5]

/-- Re-running `transformCategories` with the options state a previous run
left behind gives the same result as the previous run. -/
theorem transformCategoriesT_rerun {f : RenderFn} {data : Js} {options : JsOptions}
    {s : String} {o : JsOptions} {tr : List Event}
    (h : transformCategoriesT f data options = .ok (s, o, tr)) :
    transformCategoriesT f data o = transformCategoriesT f data options := by
  rw [transformCategoriesT_out_options h]
  exact transformCategoriesT_indep f data options none none

/-- Evaluate `TransformControl.transform` on resolved inputs. -/
theorem transform_eval (tc : TransformControl) (data : Js) (options : JsOptions)
    (fn : Transform) (r : Js) (o : JsOptions)
    (hobj : isTypeofObject data = true)
    (hbad : badTransformTypeField options.transformType = false)
    (hfn : tc.transforms
        (match options.transformType with | .str s => s | _ => tc.transformType) = some fn)
    (hrun : fn data options = .ok (r, o)) :
    tc.transform data options = .ok (r, o, tc) := by
  unfold TransformControl.transform
  simp only [hobj, Bool.not_true, Bool.false_eq_true, if_false, hbad, hfn, hrun]

/-- An engine-backed built-in transform, re-run on the options state it left
behind, reproduces its result (and it preserves the caller's
`transformType`/`description` fields). -/
theorem engine_builtin_rerun (sF : RenderFn) (data : Js) (options : JsOptions)
    (r : Js) (o : JsOptions)
    (hrun : (transformCategoriesT sF data options).map
        (fun rr => (Js.str rr.1, rr.2.1)) = .ok (r, o)) :
    o.transformType = options.transformType ∧ o.description = options.description ∧
    (transformCategoriesT sF data o).map (fun rr => (Js.str rr.1, rr.2.1)) = .ok (r, o) := by
  cases hc : transformCategoriesT sF data options with
  | error e => rw [hc] at hrun; simp [Except.map] at hrun
  | ok v =>
      obtain ⟨sv, ov, trv⟩ := v
      rw [hc] at hrun
      simp only [Except.map, Except.ok.injEq, Prod.mk.injEq] at hrun
      obtain ⟨rfl, rfl⟩ := hrun
      have hout := transformCategoriesT_out_options hc
      refine ⟨by rw [hout], by rw [hout], ?_⟩
      rw [transformCategoriesT_rerun hc, hc]
      rfl

/-- **C8**: with the built-in transform table, two successive `transform`
calls — the second receiving the data and the options object exactly as the
first call left them — produce the identical output value: the traversal
leaves no state behind that could alter a second run. -/
theorem C8_transform_idempotent (tc : TransformControl) (data : Js)
    (options : JsOptions) (r1 : Js) (o1 : JsOptions) (tc1 : TransformControl)
    (htc : tc.transforms = defaultTransforms)
    (h : tc.transform data options = .ok (r1, o1, tc1)) :
    tc1.transform data o1 = .ok (r1, o1, tc1) := by
  obtain ⟨hobj, hbad, heq, fn, hfn, hrun⟩ := transform_ok_destruct h
  rw [heq]
  rw [htc] at hfn
  unfold defaultTransforms at hfn
  split at hfn
  next hname =>  -- "html"
    cases Option.some.inj hfn
    obtain ⟨hTT, hdesc, hrun2⟩ := engine_builtin_rerun sTRANSFORMHTML data options r1 o1 hrun
    refine transform_eval tc data o1 transformHTML r1 o1 hobj ?_ ?_ hrun2
    · rw [hTT]; exact hbad
    · rw [htc, hTT, hname]
      rfl
  next hname =>  -- "json"
    cases Option.some.inj hfn
    have hrun' : (jsonStringifyJs data, options) = (r1, o1) := Except.ok.inj hrun
    obtain ⟨rfl, rfl⟩ := Prod.mk.inj hrun'
    refine transform_eval tc data options transformJSON (jsonStringifyJs data) options
      hobj hbad ?_ rfl
    rw [htc, hname]
    rfl
  next hname =>  -- "markdown"
    cases Option.some.inj hfn
    obtain ⟨hTT, hdesc, hrun2⟩ := engine_builtin_rerun sTRANSFORMMarkdown data options r1 o1 hrun
    refine transform_eval tc data o1 transformMarkdown r1 o1 hobj ?_ ?_ hrun2
    · rw [hTT]; exact hbad
    · rw [htc, hTT, hname]
      rfl
  next hname =>  -- "text"
    cases Option.some.inj hfn
    obtain ⟨hTT, hdesc, hrun2⟩ := engine_builtin_rerun sTRANSFORMText data options r1 o1 hrun
    refine transform_eval tc data o1 transformText r1 o1 hobj ?_ ?_ hrun2
    · rw [hTT]; exact hbad
    · rw [htc, hTT, hname]
      rfl
  next => exact absurd hfn (by simp)

theorem C8_transform_idempotent_witness :
    TransformControl.targetDefault.transform witData1 {} =
      .ok (.str "A\n   r1\n\n", {}, TransformControl.targetDefault) :=
  C8_transform_idempotent TransformControl.targetDefault witData1 {}
    (.str "A\n   r1\n\n") {} TransformControl.targetDefault rfl (by rfl)

/-! ## C9: renderer behaviour on unknown categories -/

/-- **C9 (counterexample)**: the HTML renderer does *not* return the empty
string on a category name outside the handled set: at pass 0 it returns its
structural list markup (here the opening `<ul id="widgets">` with a dangling
`<li>`), falsifying the claim that each built-in renderer returns the empty
string for every unknown category, entry, depth and pass. -/
theorem C9_unknown_category_counterexample :
    "widgets" ∉ handledCategories ∧
    sTRANSFORMHTML "widgets" (.obj []) 0 witOpts9a =
      .ok "<ul id=\"widgets\">\n   <li>" ∧
    ("<ul id=\"widgets\">\n   <li>" : String) ≠ "" :=
  ⟨by decide, rfl, by decide⟩

/-- **C9 (amended)**: on a category name outside the handled set none of the
three built-in renderers raises an error, but only the markdown renderer
always returns the empty string: the text renderer returns the bare
indentation prefix on pass 0 (empty only at depth 0) and the empty string on
later passes, and the HTML renderer returns its category-independent
structural markup — the `<ul>`/`<li>` prefix on pass 0, the closing tags
dictated by the per-depth state on pass 1, and the empty string on later
passes. -/
theorem C9_unknown_category_amended (category : String) (entry : Js) (depth : Nat)
    (options : JsOptions) (td : TData)
    (hcat : category ∉ handledCategories)
    (htd : tdataAt options depth = .ok td) :
    sTRANSFORMMarkdown category entry depth options = .ok "" ∧
    sTRANSFORMText category entry depth options =
      .ok (if td.pass > 0 then "" else indent depth) ∧
    sTRANSFORMHTML category entry depth options =
      .ok (if td.pass = 0 then
             (if td.firstEntry then
               indent depth ++ "<ul id=\"" ++ category ++ "\">\n" ++
                 indent (depth + 1) ++ "<li>"
              else if depth == 0 && mdlGt options 1 then
                indent (depth + 1) ++ "<li class=\"li-depth-0\">"
              else indent (depth + 1) ++ "<li>")
           else if td.pass = 1 then
             (if !td.maxDepth then indent (depth + 1) ++ "</li>\n" else "") ++
             (if td.lastEntry then indent depth ++ "</ul>\n" else "")
           else "") := by
  simp only [handledCategories, List.mem_cons, List.not_mem_nil, or_false, not_or] at hcat
  obtain ⟨hc1, hc2, hc3, hc4, hc5, hc6, hc7, hc8, hc9, hc10⟩ := hcat
  refine ⟨?_, ?_, ?_⟩
  · by_cases hp : td.pass > 0
    · simp [sTRANSFORMMarkdown, htd, hp]
    · simp only [sTRANSFORMMarkdown, htd, hp, if_false]
      rfl
  · by_cases hp : td.pass > 0
    · simp [sTRANSFORMText, htd, hp]
    · simp only [sTRANSFORMText, htd, hp, if_false]
      rfl
  · simp only [sTRANSFORMHTML, htd]
    match hp : td.pass with
    | 0 =>
        simp only [sTRANSFORMHTMLFirst, htd, if_pos rfl]
        rfl
    | 1 =>
        simp only [sTRANSFORMHTMLSecond, htd]
        rfl
    | p + 2 =>
        rfl

theorem C9_unknown_category_amended_witness :
    sTRANSFORMMarkdown "widgets" (.obj []) 0 witOpts9b = .ok "" ∧
    sTRANSFORMText "widgets" (.obj []) 0 witOpts9b = .ok "" ∧
    sTRANSFORMHTML "widgets" (.obj []) 0 witOpts9b = .ok "   </li>\n</ul>\n" :=
  C9_unknown_category_amended "widgets" (.obj []) 0 witOpts9b witTD9b
    (by decide) rfl

/-! ## C7: the JSON round-trip -/

theorem digitChar_isDigit {k : Nat} (h : k < 10) : (Nat.digitChar k).isDigit = true := by
  interval_cases k <;> decide

theorem digitChar_val {k : Nat} (h : k < 10) :
    (Nat.digitChar k).toNat - '0'.toNat = k := by
  interval_cases k <;> decide

theorem hexVal_digitChar {k : Nat} (h : k < 16) :
    hexVal (Nat.digitChar k) = some k := by
  interval_cases k <;> decide

theorem natCharsAux_digits (fuel : Nat) : ∀ n, ∀ c ∈ natCharsAux fuel n, c.isDigit = true := by
  induction fuel with
  | zero =>
      intro n c hc
      simp only [natCharsAux, List.mem_singleton] at hc
      subst hc
      exact digitChar_isDigit (Nat.mod_lt _ (by omega))
  | succ fuel ih =>
      intro n c hc
      simp only [natCharsAux] at hc
      split at hc
      next h =>
        simp only [List.mem_singleton] at hc
        subst hc
        exact digitChar_isDigit h
      next h =>
        rw [List.mem_append] at hc
        rcases hc with hc | hc
        · exact ih _ c hc
        · simp only [List.mem_singleton] at hc
          subst hc
          exact digitChar_isDigit (Nat.mod_lt _ (by omega))

theorem natChars_digits (n : Nat) : ∀ c ∈ natChars n, c.isDigit = true :=
  natCharsAux_digits n n

theorem digitsVal_append_one (A : List Char) (c : Char) :
    digitsVal (A ++ [c]) = digitsVal A * 10 + (c.toNat - '0'.toNat) := by
  simp [digitsVal, List.foldl_append]

theorem digitsVal_natCharsAux (fuel : Nat) : ∀ n, n ≤ fuel →
    digitsVal (natCharsAux fuel n) = n := by
  induction fuel with
  | zero =>
      intro n hn
      have h0 : n = 0 := by omega
      subst h0
      simp [natCharsAux, digitsVal]
      decide
  | succ fuel ih =>
      intro n hn
      simp only [natCharsAux]
      split
      next h =>
        simp only [digitsVal, List.foldl_cons, List.foldl_nil, Nat.zero_mul, Nat.zero_add]
        interval_cases n <;> decide
      next h =>
        rw [digitsVal_append_one, ih (n / 10) (by omega),
          digitChar_val (Nat.mod_lt _ (by omega))]
        omega

theorem digitsVal_natChars (n : Nat) : digitsVal (natChars n) = n :=
  digitsVal_natCharsAux n n le_rfl

theorem natCharsAux_ne_nil (fuel n : Nat) : natCharsAux fuel n ≠ [] := by
  cases fuel with
  | zero => simp [natCharsAux]
  | succ fuel =>
      simp only [natCharsAux]
      split
      · simp
      · simp

theorem natChars_head (n : Nat) : ∃ c cs, natChars n = c :: cs ∧ c.isDigit = true := by
  obtain ⟨c, cs, hc⟩ := List.exists_cons_of_ne_nil (natCharsAux_ne_nil n n)
  refine ⟨c, cs, hc, natChars_digits n c ?_⟩
  rw [show natChars n = c :: cs from hc]
  simp

theorem takeWhile_all_append (p : Char → Bool) :
    ∀ (A B : List Char), (∀ a ∈ A, p a = true) →
      (∀ b, B.head? = some b → p b = false) →
      (A ++ B).takeWhile p = A ∧ (A ++ B).dropWhile p = B := by
  intro A
  induction A with
  | nil =>
      intro B _ hB
      constructor
      · cases B with
        | nil => rfl
        | cons b bs =>
            simp only [List.nil_append, List.takeWhile]
            rw [hB b rfl]
      · cases B with
        | nil => rfl
        | cons b bs =>
            simp only [List.nil_append, List.dropWhile]
            rw [hB b rfl]
  | cons a A ih =>
      intro B hA hB
      have hpa : p a = true := hA a (by simp)
      have hrec := ih B (fun x hx => hA x (by simp [hx])) hB
      constructor
      · simp only [List.cons_append, List.takeWhile, hpa, List.append_eq]
        rw [hrec.1]
      · simp only [List.cons_append, List.dropWhile, hpa, List.append_eq]
        exact hrec.2

theorem parseNat_natChars (n : Nat) (rest : List Char)
    (hrest : ∀ d, rest.head? = some d → d.isDigit = false) :
    parseNat (natChars n ++ rest) = some (n, rest) := by
  obtain ⟨ht, hd⟩ := takeWhile_all_append Char.isDigit (natChars n) rest
    (natChars_digits n) hrest
  simp only [parseNat, ht, hd]
  obtain ⟨c, cs, hc, _⟩ := natChars_head n
  rw [hc]
  simp only [List.isEmpty_cons, Bool.false_eq_true, if_false]
  rw [← hc, digitsVal_natChars]

theorem parseInt_not_neg (c : Char) (tail : List Char) (hc : c ≠ '-') :
    parseInt (c :: tail) = (parseNat (c :: tail)).map (fun r => ((r.1 : Int), r.2)) := by
  simp only [parseInt]
  split
  next rest heq =>
    exact absurd (List.head_eq_of_cons_eq heq) (by simpa using hc)
  next => rfl

theorem parseInt_intChars (i : Int) (rest : List Char)
    (hrest : ∀ d, rest.head? = some d → d.isDigit = false) :
    parseInt (intChars i ++ rest) = some (i, rest) := by
  by_cases hi : i < 0
  · simp only [intChars, if_pos hi, List.cons_append, parseInt]
    rw [parseNat_natChars i.natAbs rest hrest]
    simp only [Option.map]
    rw [show -(i.natAbs : Int) = i by omega]
  · simp only [intChars, if_neg hi]
    obtain ⟨c, cs, hc, hcd⟩ := natChars_head i.natAbs
    have hcne : c ≠ '-' := by
      intro hEq; rw [hEq] at hcd; exact absurd hcd (by decide)
    rw [hc, List.cons_append, parseInt_not_neg c (cs ++ rest) hcne,
      ← List.cons_append, ← hc, parseNat_natChars i.natAbs rest hrest]
    simp only [Option.map]
    rw [show ((i.natAbs : Nat) : Int) = i by omega]

theorem parseStrBody_esc (acc : List Char) (e ch : Char) (tail : List Char)
    (he : e ≠ 'u') (hu : unescChar e = some ch) :
    parseStrBody acc ('\\' :: e :: tail) = parseStrBody (ch :: acc) tail := by
  rw [parseStrBody.eq_def]
  split
  any_goals simp_all
  rename_i hne1 hnoesc heq
  obtain ⟨hc, hr⟩ := heq
  exact absurd hr.symm (hnoesc e tail hc.symm)

theorem parseStrBody_plain (acc : List Char) (c : Char) (tail : List Char)
    (h1 : c ≠ '"') (h2 : c ≠ '\\') :
    parseStrBody acc (c :: tail) = parseStrBody (c :: acc) tail := by
  rw [parseStrBody.eq_def]
  split
  all_goals simp_all

theorem parseStrBody_u (acc : List Char) (h1 h2 : Nat) (tail : List Char)
    (hh1 : h1 < 16) (hh2 : h2 < 16) :
    parseStrBody acc
        ('\\' :: 'u' :: '0' :: '0' :: Nat.digitChar h1 :: Nat.digitChar h2 :: tail) =
      parseStrBody (Char.ofNat (((0 * 16 + 0) * 16 + h1) * 16 + h2) :: acc) tail := by
  have hred : parseStrBody acc
      ('\\' :: 'u' :: '0' :: '0' :: Nat.digitChar h1 :: Nat.digitChar h2 :: tail) = (do
        let va ← hexVal '0'
        let vb ← hexVal '0'
        let vc ← hexVal (Nat.digitChar h1)
        let vd ← hexVal (Nat.digitChar h2)
        parseStrBody (Char.ofNat (((va * 16 + vb) * 16 + vc) * 16 + vd) :: acc) tail) := rfl
  rw [hred, show hexVal '0' = some 0 from rfl, hexVal_digitChar hh1, hexVal_digitChar hh2]
  rfl

theorem parseStrBody_emit (cs : List Char) : ∀ (acc rest : List Char),
    parseStrBody acc (cs.flatMap escChar ++ ('"' :: rest)) =
      some (String.mk (acc.reverse ++ cs), rest) := by
  induction cs with
  | nil =>
      intro acc rest
      simp [parseStrBody]
  | cons c cs ih =>
      intro acc rest
      rw [List.flatMap_cons, List.append_assoc]
      have hmk : String.mk ((c :: acc).reverse ++ cs) =
          String.mk (acc.reverse ++ c :: cs) := by
        rw [List.reverse_cons, List.append_assoc]
        rfl
      by_cases h1 : c = '"'
      · subst h1
        rw [show escChar '"' = ['\\', '"'] from rfl]
        simp only [List.cons_append, List.nil_append]
        rw [parseStrBody_esc acc '"' '"' _ (by decide) rfl, ih, hmk]
      · by_cases h2 : c = '\\'
        · subst h2
          rw [show escChar '\\' = ['\\', '\\'] from rfl]
          simp only [List.cons_append, List.nil_append]
          rw [parseStrBody_esc acc '\\' '\\' _ (by decide) rfl, ih, hmk]
        · by_cases h3 : c = '\x08'
          · subst h3
            rw [show escChar '\x08' = ['\\', 'b'] from rfl]
            simp only [List.cons_append, List.nil_append]
            rw [parseStrBody_esc acc 'b' '\x08' _ (by decide) rfl, ih, hmk]
          · by_cases h4 : c = '\x0c'
            · subst h4
              rw [show escChar '\x0c' = ['\\', 'f'] from rfl]
              simp only [List.cons_append, List.nil_append]
              rw [parseStrBody_esc acc 'f' '\x0c' _ (by decide) rfl, ih, hmk]
            · by_cases h5 : c = '\n'
              · subst h5
                rw [show escChar '\n' = ['\\', 'n'] from rfl]
                simp only [List.cons_append, List.nil_append]
                rw [parseStrBody_esc acc 'n' '\n' _ (by decide) rfl, ih, hmk]
              · by_cases h6 : c = '\r'
                · subst h6
                  rw [show escChar '\r' = ['\\', 'r'] from rfl]
                  simp only [List.cons_append, List.nil_append]
                  rw [parseStrBody_esc acc 'r' '\r' _ (by decide) rfl, ih, hmk]
                · by_cases h7 : c = '\t'
                  · subst h7
                    rw [show escChar '\t' = ['\\', 't'] from rfl]
                    simp only [List.cons_append, List.nil_append]
                    rw [parseStrBody_esc acc 't' '\t' _ (by decide) rfl, ih, hmk]
                  · by_cases h8 : c.toNat < 0x20
                    · have hesc : escChar c =
                          ['\\', 'u', '0', '0', Nat.digitChar (c.toNat / 16),
                           Nat.digitChar (c.toNat % 16)] := by
                        rw [escChar.eq_def]
                        split
                        all_goals simp_all
                      rw [hesc]
                      simp only [List.cons_append, List.nil_append]
                      rw [parseStrBody_u acc (c.toNat / 16) (c.toNat % 16) _
                        (by omega) (by omega)]
                      rw [show ((0 * 16 + 0) * 16 + c.toNat / 16) * 16 + c.toNat % 16 =
                          c.toNat by omega]
                      rw [Char.ofNat_toNat, ih, hmk]
                    · have hesc : escChar c = [c] := by
                        rw [escChar.eq_def]
                        split
                        all_goals simp_all
                      rw [hesc]
                      simp only [List.cons_append, List.nil_append]
                      rw [parseStrBody_plain acc c _ h1 h2, ih, hmk]

theorem emitVal_eq (v : Js) (hv : v ≠ .undef) : emitVal v = some (emitElemOr v) := by
  cases v with
  | undef => exact absurd rfl hv
  | null => rfl
  | bool b => cases b <;> rfl
  | num n => rfl
  | str s => rfl
  | arr xs => rfl
  | obj fs => rfl

theorem noUndef_ne_undef {v : Js} (h : noUndef v = true) : v ≠ .undef := by
  intro hEq
  subst hEq
  simp [noUndef] at h

theorem isDigit_ne {c : Char} (h : c.isDigit = true) :
    ¬(c = 'n' ∨ c = 't' ∨ c = 'f' ∨ c = '"' ∨ c = '[' ∨ c = '{') := by
  rintro (rfl | rfl | rfl | rfl | rfl | rfl) <;> exact absurd h (by decide)

theorem parseValue_default (fuel : Nat) (c : Char) (cs : List Char)
    (h1 : c ≠ 'n') (h2 : c ≠ 't') (h3 : c ≠ 'f') (h4 : c ≠ '"')
    (h5 : c ≠ '[') (h6 : c ≠ '{') :
    parseValue (fuel + 1) (c :: cs) =
      (parseInt (c :: cs)).map (fun r => (Js.num r.1, r.2)) := by
  simp only [parseValue]
  split
  all_goals first | rfl | simp_all

theorem parseValue_arrCons (fuel : Nat) (c : Char) (cs : List Char) (h : c ≠ ']') :
    parseValue (fuel + 1) ('[' :: c :: cs) =
      (parseElems fuel (c :: cs)).map (fun r => (Js.arr r.1, r.2)) := by
  simp only [parseValue]
  split
  all_goals first | rfl | simp_all

theorem parseValue_objCons (fuel : Nat) (t : List Char) :
    parseValue (fuel + 1) ('{' :: '"' :: t) =
      (parseMembers fuel ('"' :: t)).map (fun r => (Js.obj r.1, r.2)) := rfl

theorem parseValue_strHead (fuel : Nat) (t : List Char) :
    parseValue (fuel + 1) ('"' :: t) =
      (parseStrBody [] t).map (fun r => (Js.str r.1, r.2)) := rfl

theorem emitElemOr_head (v : Js) : ∃ c cs, emitElemOr v = c :: cs ∧ c ≠ ']' := by
  cases v with
  | undef => exact ⟨'n', ['u', 'l', 'l'], rfl, by decide⟩
  | null => exact ⟨'n', ['u', 'l', 'l'], rfl, by decide⟩
  | bool b =>
      cases b with
      | false => exact ⟨'f', ['a', 'l', 's', 'e'], rfl, by decide⟩
      | true => exact ⟨'t', ['r', 'u', 'e'], rfl, by decide⟩
  | num n =>
      by_cases h : n < 0
      · exact ⟨'-', natChars n.natAbs, by simp [emitElemOr, intChars, h], by decide⟩
      · obtain ⟨c, cs, hc, hcd⟩ := natChars_head n.natAbs
        refine ⟨c, cs, by simp [emitElemOr, intChars, h, hc], ?_⟩
        intro hEq
        rw [hEq] at hcd
        exact absurd hcd (by decide)
  | str s => exact ⟨'"', s.data.flatMap escChar ++ ['"'], rfl, by decide⟩
  | arr xs => exact ⟨'[', emitElems xs ++ [']'], rfl, by decide⟩
  | obj fs => exact ⟨'{', emitMembers fs ++ ['}'], rfl, by decide⟩

theorem emitMembers_cons_eq (k : String) (v : Js) (fs : List (String × Js))
    (hv : v ≠ .undef) :
    emitMembers ((k, v) :: fs) =
      emitStr k ++ ':' :: (emitElemOr v ++
        (if (emitMembers fs).isEmpty then [] else ',' :: emitMembers fs)) := by
  simp only [emitMembers, emitVal_eq v hv]

theorem emitMembers_cons_ne_nil (k : String) (v : Js) (fs : List (String × Js))
    (hv : v ≠ .undef) : emitMembers ((k, v) :: fs) ≠ [] := by
  rw [emitMembers_cons_eq k v fs hv]
  simp [emitStr]

mutual

theorem parse_emitElemOr (v : Js) (hu : noUndef v = true) :
    ∀ (fuel : Nat) (rest : List Char), (emitElemOr v).length + 1 ≤ fuel →
      (∀ d, rest.head? = some d → d.isDigit = false) →
      parseValue fuel (emitElemOr v ++ rest) = some (v, rest) := by
  cases v with
  | undef => exact absurd hu (by simp [noUndef])
  | null =>
      intro fuel rest hfuel _
      cases fuel with
      | zero => exact absurd hfuel (by simp)
      | succ f => rfl
  | bool b =>
      intro fuel rest hfuel _
      cases fuel with
      | zero => exact absurd hfuel (by simp)
      | succ f => cases b <;> rfl
  | num n =>
      intro fuel rest hfuel hrest
      cases fuel with
      | zero => exact absurd hfuel (by simp)
      | succ f =>
          obtain ⟨c, cs, hc, hcd⟩ :
              ∃ c cs, intChars n = c :: cs ∧ (c.isDigit = true ∨ c = '-') := by
            by_cases h : n < 0
            · exact ⟨'-', natChars n.natAbs, by simp [intChars, h], Or.inr rfl⟩
            · obtain ⟨c, cs, hc, hcd⟩ := natChars_head n.natAbs
              exact ⟨c, cs, by simp [intChars, h, hc], Or.inl hcd⟩
          have hne : c ≠ 'n' ∧ c ≠ 't' ∧ c ≠ 'f' ∧ c ≠ '"' ∧ c ≠ '[' ∧ c ≠ '{' := by
            rcases hcd with hcd | hcd
            · have hx := isDigit_ne hcd
              push_neg at hx
              exact hx
            · subst hcd
              exact ⟨by decide, by decide, by decide, by decide, by decide, by decide⟩
          show parseValue (f + 1) (intChars n ++ rest) = some (.num n, rest)
          rw [hc, List.cons_append,
            parseValue_default f c (cs ++ rest) hne.1 hne.2.1 hne.2.2.1 hne.2.2.2.1
              hne.2.2.2.2.1 hne.2.2.2.2.2,
            ← List.cons_append, ← hc, parseInt_intChars n rest hrest]
          rfl
  | str s =>
      intro fuel rest hfuel _
      cases fuel with
      | zero => exact absurd hfuel (by simp)
      | succ f =>
          show parseValue (f + 1)
            (('"' :: (s.data.flatMap escChar ++ ['"'])) ++ rest) = some (.str s, rest)
          rw [List.cons_append, parseValue_strHead, List.append_assoc,
            show (['"'] : List Char) ++ rest = '"' :: rest from rfl,
            parseStrBody_emit]
          cases s with
          | mk data => rfl
  | arr xs =>
      cases xs with
      | nil =>
          intro fuel rest hfuel _
          cases fuel with
          | zero => exact absurd hfuel (by simp)
          | succ f => rfl
      | cons x xs =>
          intro fuel rest hfuel _
          have hux : noUndef x = true ∧ noUndefList (x :: xs) = true := by
            have h1 : noUndefList (x :: xs) = true := by simpa [noUndef] using hu
            have h2 : noUndef x = true := by
              simpa [noUndefList, Bool.and_eq_true] using And.left
                (by simpa [noUndefList, Bool.and_eq_true] using h1 :
                  noUndef x = true ∧ noUndefList xs = true)
            exact ⟨h2, h1⟩
          cases fuel with
          | zero => exact absurd hfuel (by simp)
          | succ f =>
              have hlen : (emitElemOr (Js.arr (x :: xs))).length =
                  (emitElems (x :: xs)).length + 2 := by
                simp [emitElemOr]
              obtain ⟨t, ht⟩ : ∃ t, emitElems (x :: xs) = emitElemOr x ++ t := by
                cases xs with
                | nil => exact ⟨[], by simp [emitElems]⟩
                | cons y ys => exact ⟨',' :: emitElems (y :: ys), rfl⟩
              obtain ⟨c, cs2, hc, hcne⟩ := emitElemOr_head x
              show parseValue (f + 1)
                (('[' :: (emitElems (x :: xs) ++ [']'])) ++ rest) = some (.arr (x :: xs), rest)
              have hSc : ('[' :: (emitElems (x :: xs) ++ [']'])) ++ rest =
                  '[' :: c :: (cs2 ++ (t ++ ']' :: rest)) := by
                simp [ht, hc]
              have hBack : c :: (cs2 ++ (t ++ ']' :: rest)) =
                  emitElems (x :: xs) ++ (']' :: rest) := by
                simp [ht, hc]
              rw [hSc, parseValue_arrCons f c (cs2 ++ (t ++ ']' :: rest)) hcne, hBack,
                parse_emitElems (x :: xs) (by simp) hux.2 f rest (by omega)]
              rfl
  | obj fs =>
      cases fs with
      | nil =>
          intro fuel rest hfuel _
          cases fuel with
          | zero => exact absurd hfuel (by simp)
          | succ f => rfl
      | cons kv fs =>
          intro fuel rest hfuel _
          have huf : noUndefFields (kv :: fs) = true := by simpa [noUndef] using hu
          cases fuel with
          | zero => exact absurd hfuel (by simp)
          | succ f =>
              obtain ⟨k, v⟩ := kv
              have hvne : v ≠ .undef := by
                have : noUndef v = true ∧ noUndefFields fs = true := by
                  simpa [noUndefFields, Bool.and_eq_true] using huf
                exact noUndef_ne_undef this.1
              have hlen : (emitElemOr (Js.obj ((k, v) :: fs))).length =
                  (emitMembers ((k, v) :: fs)).length + 2 := by
                simp [emitElemOr]
              show parseValue (f + 1)
                (('{' :: (emitMembers ((k, v) :: fs) ++ ['}'])) ++ rest) =
                some (.obj ((k, v) :: fs), rest)
              have hshape : (emitMembers ((k, v) :: fs) ++ ['}']) ++ rest =
                  emitMembers ((k, v) :: fs) ++ ('}' :: rest) := by
                rw [List.append_assoc]
                rfl
              have hhead : ∃ t, emitMembers ((k, v) :: fs) = '"' :: t := by
                rw [emitMembers_cons_eq k v fs hvne]
                exact ⟨(k.data.flatMap escChar ++ ['"']) ++
                  ':' :: (emitElemOr v ++
                    (if (emitMembers fs).isEmpty then [] else ',' :: emitMembers fs)), rfl⟩
              obtain ⟨t, ht⟩ := hhead
              rw [List.cons_append, hshape, ht, List.cons_append,
                parseValue_objCons f (t ++ '}' :: rest), ← List.cons_append, ← ht,
                parse_emitMembers ((k, v) :: fs) (by simp) huf f rest (by omega)]
              rfl

theorem parse_emitElems (xs : List Js) (hne : xs ≠ []) (hu : noUndefList xs = true) :
    ∀ (fuel : Nat) (rest : List Char), (emitElems xs).length + 2 ≤ fuel →
      parseElems fuel (emitElems xs ++ (']' :: rest)) = some (xs, rest) := by
  cases xs with
  | nil => exact absurd rfl hne
  | cons x xs =>
      intro fuel rest hfuel
      have hux : noUndef x = true ∧ noUndefList xs = true := by
        simpa [noUndefList, Bool.and_eq_true] using hu
      cases fuel with
      | zero => exact absurd hfuel (by simp)
      | succ f =>
          cases xs with
          | nil =>
              show parseElems (f + 1) (emitElemOr x ++ (']' :: rest)) = some ([x], rest)
              simp only [parseElems]
              rw [parse_emitElemOr x hux.1 f (']' :: rest) (by
                  have : (emitElems [x]).length = (emitElemOr x).length := by
                    simp [emitElems]
                  omega)
                (by intro d hd; simp at hd; subst hd; decide)]
              rfl
          | cons y ys =>
              have hlen : (emitElems (x :: y :: ys)).length =
                  (emitElemOr x).length + 1 + (emitElems (y :: ys)).length := by
                simp [emitElems]
                omega
              show parseElems (f + 1)
                ((emitElemOr x ++ ',' :: emitElems (y :: ys)) ++ (']' :: rest)) =
                some (x :: y :: ys, rest)
              simp only [parseElems]
              rw [List.append_assoc, List.cons_append,
                parse_emitElemOr x hux.1 f (',' :: (emitElems (y :: ys) ++ ']' :: rest))
                  (by omega)
                  (by intro d hd; simp at hd; subst hd; decide)]
              show (parseElems f (emitElems (y :: ys) ++ (']' :: rest))).map
                (fun r => (x :: r.1, r.2)) = some (x :: y :: ys, rest)
              rw [parse_emitElems (y :: ys) (by simp) hux.2 f rest (by omega)]
              rfl

theorem parse_emitMembers (fs : List (String × Js)) (hne : fs ≠ [])
    (hu : noUndefFields fs = true) :
    ∀ (fuel : Nat) (rest : List Char), (emitMembers fs).length + 2 ≤ fuel →
      parseMembers fuel (emitMembers fs ++ ('}' :: rest)) = some (fs, rest) := by
  cases fs with
  | nil => exact absurd rfl hne
  | cons kv fs =>
      obtain ⟨k, v⟩ := kv
      intro fuel rest hfuel
      have huv : noUndef v = true ∧ noUndefFields fs = true := by
        simpa [noUndefFields, Bool.and_eq_true] using hu
      have hvne : v ≠ .undef := noUndef_ne_undef huv.1
      cases fuel with
      | zero => exact absurd hfuel (by simp)
      | succ f =>
          rw [emitMembers_cons_eq k v fs hvne] at hfuel ⊢
          simp only [List.length_append, List.length_cons, emitStr] at hfuel
          show parseMembers (f + 1)
            (('"' :: (k.data.flatMap escChar ++ ['"']) ++
              ':' :: (emitElemOr v ++
                (if (emitMembers fs).isEmpty then [] else ',' :: emitMembers fs))) ++
              ('}' :: rest)) = some ((k, v) :: fs, rest)
          simp only [parseMembers, List.cons_append, List.append_assoc, List.nil_append]
          rw [parseStrBody_emit]
          simp only [List.reverse_nil, List.nil_append]
          cases fs with
          | nil =>
              rw [show (if (emitMembers ([] : List (String × Js))).isEmpty then ([] : List Char)
                  else ',' :: emitMembers []) = [] from rfl]
              simp only [List.nil_append]
              rw [parse_emitElemOr v huv.1 f ('}' :: rest)
                (by omega)
                (by intro d hd; simp at hd; subst hd; decide)]
              cases k with
              | mk kdata => rfl
          | cons kv2 fs2 =>
              obtain ⟨k2, v2⟩ := kv2
              have hv2ne : v2 ≠ .undef := by
                have h2 : noUndef v2 = true ∧ noUndefFields fs2 = true := by
                  simpa [noUndefFields, Bool.and_eq_true] using huv.2
                exact noUndef_ne_undef h2.1
              have hne2 : (emitMembers ((k2, v2) :: fs2)).isEmpty = false := by
                rw [List.isEmpty_eq_false]
                exact emitMembers_cons_ne_nil k2 v2 fs2 hv2ne
              rw [hne2] at hfuel ⊢
              simp only [Bool.false_eq_true, if_false, List.cons_append, List.length_cons]
                at hfuel ⊢
              rw [parse_emitElemOr v huv.1 f
                (',' :: (emitMembers ((k2, v2) :: fs2) ++ '}' :: rest))
                (by omega)
                (by intro d hd; simp at hd; subst hd; decide)]
              show (parseMembers f (emitMembers ((k2, v2) :: fs2) ++ ('}' :: rest))).map
                (fun r => ((String.mk k.data, v) :: r.1, r.2)) =
                some ((k, v) :: (k2, v2) :: fs2, rest)
              rw [parse_emitMembers ((k2, v2) :: fs2) (by simp) huv.2 f rest (by omega)]
              cases k with
              | mk kdata => rfl

end

/-- Any `undefined`-free value is serialized by `JSON.stringify` and decoded
back to exactly itself by the JSON decoder. -/
theorem jsonStringify_roundtrip (v : Js) (h : noUndef v = true) :
    emitVal v = some (emitElemOr v) ∧
    jsonParse (String.mk (emitElemOr v)) = some v := by
  refine ⟨emitVal_eq v (noUndef_ne_undef h), ?_⟩
  simp only [jsonParse]
  rw [show (String.mk (emitElemOr v)).length = (emitElemOr v).length from rfl]
  have hmain := parse_emitElemOr v h (2 * (emitElemOr v).length + 2) [] (by omega)
    (by intro d hd; simp at hd)
  rw [List.append_nil] at hmain
  rw [hmain]

/-- **C7 (counterexample)**: the JSON transform output does *not* decode back
to the input for every input: an object with an `undefined`-valued member
serializes to an empty JSON object (the member is dropped by
`JSON.stringify`), which decodes to an object with no members — not
structurally equal field-for-field to the input. -/
theorem C7_json_roundtrip_counterexample :
    transformJSON (.obj [("a", .undef)]) {} = .ok (.str "\x7b\x7d", {}) ∧
    jsonParse "\x7b\x7d" = some (.obj []) ∧
    Js.obj [] ≠ Js.obj [("a", .undef)] :=
  ⟨rfl, rfl, by simp⟩

/-- **C7 (amended)**: for every input data node *containing no `undefined`
value* and every options value, the JSON transform succeeds with a string
that decodes back to a value structurally equal to the input — with no
requirement on (or use of) a `categories` chain; and the JSON transform is a
whole-object serialization: on *every* input and options it returns
`JSON.stringify(data)` with the options untouched, never consulting the
category traversal engine or any render callback (in particular it cannot
raise the engine's errors). -/
theorem C7_json_roundtrip_amended (data : Js) (options : JsOptions)
    (h : noUndef data = true) :
    transformJSON data options = .ok (.str (String.mk (emitElemOr data)), options) ∧
    jsonParse (String.mk (emitElemOr data)) = some data ∧
    (∀ (d : Js) (o : JsOptions), transformJSON d o = .ok (jsonStringifyJs d, o)) := by
  obtain ⟨hemit, hparse⟩ := jsonStringify_roundtrip data h
  refine ⟨?_, hparse, fun d o => rfl⟩
  simp [transformJSON, jsonStringifyJs, hemit]

theorem C7_json_roundtrip_amended_witness :
    transformJSON witData1 {} = .ok (.str (String.mk (emitElemOr witData1)), {}) ∧
    jsonParse (String.mk (emitElemOr witData1)) = some witData1 :=
  ⟨(C7_json_roundtrip_amended witData1 {} (by rfl)).1,
   (C7_json_roundtrip_amended witData1 {} (by rfl)).2.1⟩

end GhTransform
